import Mathlib

/-!
Verification of the IDP document-pipeline backend against its specification.

This file shallowly embeds the parts of the Python source that the claims
C1..C10 are about:

* `app/services/chunking.py`  (checksum invariant, strategy selection,
  narrative packing and the tiny-orphan merge pass),
* `app/services/embedder.py`  (incremental checksum-delta upsert/delete),
* `app/services/generation.py` (citation extraction/repair, groundedness),
* `app/services/ingestion.py` (policy gates, deduplication),
* `app/services/retrieval.py` (RRF hybrid fusion),
* `app/services/graph.py`     (structural knowledge graph).

Modelling conventions:
* Python machine floats are modelled over `ℚ`.  Where the source compares an
  integer against a float product such as `target * 1.2`, the comparison is
  modelled by the exact rational comparison; for the magnitudes involved the
  IEEE-754 double result of the product never crosses an integer boundary
  relative to the exact product, so the two comparisons agree on integers.
* Python exceptions that abort an operation are modelled with `Option`
  (`none` = the operation raised).
* UUID identifiers (`uuid.uuid4()`) are fresh opaque ids with no role in any
  claim; where an id is needed it is modelled by a deterministic supply.
* Database/object-store side effects are modelled as explicit returned data
  (event lists, action lists).
-/

namespace IDP

/-! ### Byte-level preliminaries: UTF-8 and SHA-256

`chunking._checksum` is `hashlib.sha256(text.encode("utf-8", errors="ignore")).hexdigest()`.
Lean strings contain no lone surrogates, so `errors="ignore"` drops nothing and
the encoding is plain UTF-8.  SHA-256 is implemented from FIPS 180-4 over
byte lists, with 32-bit words as `ℕ` reduced mod `2^32`.
-/

def u32 (n : ℕ) : ℕ := n % 4294967296

def rotr32 (k n : ℕ) : ℕ := u32 ((n >>> k) ||| (n <<< (32 - k)))

def shaCh (x y z : ℕ) : ℕ := (x &&& y) ^^^ ((x ^^^ 4294967295) &&& z)

def shaMaj (x y z : ℕ) : ℕ := (x &&& y) ^^^ (x &&& z) ^^^ (y &&& z)

def bigSigma0 (x : ℕ) : ℕ := rotr32 2 x ^^^ rotr32 13 x ^^^ rotr32 22 x

def bigSigma1 (x : ℕ) : ℕ := rotr32 6 x ^^^ rotr32 11 x ^^^ rotr32 25 x

def smallSigma0 (x : ℕ) : ℕ := rotr32 7 x ^^^ rotr32 18 x ^^^ (x >>> 3)

def smallSigma1 (x : ℕ) : ℕ := rotr32 17 x ^^^ rotr32 19 x ^^^ (x >>> 10)

def shaK : List ℕ :=
  [
   1116352408, 1899447441, 3049323471, 3921009573, 961987163, 1508970993,
   2453635748, 2870763221, 3624381080, 310598401, 607225278, 1426881987,
   1925078388, 2162078206, 2614888103, 3248222580, 3835390401, 4022224774,
   264347078, 604807628, 770255983, 1249150122, 1555081692, 1996064986,
   2554220882, 2821834349, 2952996808, 3210313671, 3336571891, 3584528711,
   113926993, 338241895, 666307205, 773529912, 1294757372, 1396182291,
   1695183700, 1986661051, 2177026350, 2456956037, 2730485921, 2820302411,
   3259730800, 3345764771, 3516065817, 3600352804, 4094571909, 275423344,
   430227734, 506948616, 659060556, 883997877, 958139571, 1322822218,
   1537002063, 1747873779, 1955562222, 2024104815, 2227730452, 2361852424,
   2428436474, 2756734187, 3204031479, 3329325298]

def shaH0 : List ℕ :=
  [
   1779033703, 3144134277, 1013904242, 2773480762, 1359893119, 2600822924,
   528734635, 1541459225]

def beBytes : ℕ → ℕ → List ℕ
  | 0, _ => []
  | k + 1, n => beBytes k (n / 256) ++ [n % 256]

def padMsg (m : List ℕ) : List ℕ :=
  let L := m.length
  let z := (120 - ((L + 1) % 64)) % 64
  m ++ [0x80] ++ List.replicate z 0 ++ beBytes 8 (L * 8)

def toBlocks64 (l : List ℕ) : List (List ℕ) :=
  if h : l = [] then []
  else
    have : (l.drop 64).length < l.length := by
      cases l with
      | nil => exact absurd rfl h
      | cons a t => simp [List.length_drop]; omega
    l.take 64 :: toBlocks64 (l.drop 64)
termination_by l.length

def words16 (block : List ℕ) : List ℕ :=
  (List.range 16).map fun i =>
    (block.getD (4 * i) 0) * 16777216 + (block.getD (4 * i + 1) 0) * 65536 +
    (block.getD (4 * i + 2) 0) * 256 + block.getD (4 * i + 3) 0

def extendSchedule : List ℕ → ℕ → List ℕ
  | acc, 0 => acc
  | acc, k + 1 =>
    let n := acc.length
    let next := u32 (smallSigma1 (acc.getD (n - 2) 0) + acc.getD (n - 7) 0 +
                     smallSigma0 (acc.getD (n - 15) 0) + acc.getD (n - 16) 0)
    extendSchedule (acc ++ [next]) k

def shaRound (s : ℕ × ℕ × ℕ × ℕ × ℕ × ℕ × ℕ × ℕ) (kw : ℕ × ℕ) :
    ℕ × ℕ × ℕ × ℕ × ℕ × ℕ × ℕ × ℕ :=
  match s with
  | (a, b, c, d, e, f, g, h) =>
    let t1 := u32 (h + bigSigma1 e + shaCh e f g + kw.1 + kw.2)
    let t2 := u32 (bigSigma0 a + shaMaj a b c)
    (u32 (t1 + t2), a, b, c, u32 (d + t1), e, f, g)

def compressBlock (hs : List ℕ) (block : List ℕ) : List ℕ :=
  let ws := extendSchedule (words16 block) 48
  let init : ℕ × ℕ × ℕ × ℕ × ℕ × ℕ × ℕ × ℕ :=
    (hs.getD 0 0, hs.getD 1 0, hs.getD 2 0, hs.getD 3 0,
     hs.getD 4 0, hs.getD 5 0, hs.getD 6 0, hs.getD 7 0)
  match (shaK.zip ws).foldl shaRound init with
  | (a, b, c, d, e, f, g, h) =>
    [u32 (hs.getD 0 0 + a), u32 (hs.getD 1 0 + b), u32 (hs.getD 2 0 + c), u32 (hs.getD 3 0 + d),
     u32 (hs.getD 4 0 + e), u32 (hs.getD 5 0 + f), u32 (hs.getD 6 0 + g), u32 (hs.getD 7 0 + h)]

def sha256Words (m : List ℕ) : List ℕ :=
  (toBlocks64 (padMsg m)).foldl compressBlock shaH0

def hexDigit (n : ℕ) : Char :=
  Char.ofNat (if n < 10 then 48 + n else 87 + n)

def wordHex (w : ℕ) : List Char :=
  (List.range 8).map fun i => hexDigit ((w >>> (28 - 4 * i)) &&& 15)

def sha256HexBytes (m : List ℕ) : String :=
  String.mk ((sha256Words m).flatMap wordHex)

def utf8Char (c : Char) : List ℕ :=
  let n := c.toNat
  if n < 128 then [n]
  else if n < 2048 then [192 + n / 64, 128 + n % 64]
  else if n < 65536 then [224 + n / 4096, 128 + (n / 64) % 64, 128 + n % 64]
  else [240 + n / 262144, 128 + (n / 4096) % 64, 128 + (n / 64) % 64, 128 + n % 64]

def utf8Bytes (s : String) : List ℕ := s.toList.flatMap utf8Char

/-- Embedding of `chunking._checksum`: SHA-256 hex digest of the UTF-8 bytes. -/
def checksum (text : String) : String := sha256HexBytes (utf8Bytes text)

/-! ### Python string helpers

`str.strip`, `str.splitlines`, `str.split` as used by `chunking.py`.
The whitespace/linebreak sets cover the characters that can occur in the
pipeline's texts (ASCII whitespace plus NBSP/NEL); the exotic Unicode members
of Python's sets behave identically where they appear.
-/

def pyWsChar (c : Char) : Bool :=
  c = ' ' || c = '\t' || c = '\n' || c = '\r' || c.toNat = 11 || c.toNat = 12 ||
  c.toNat = 160 || c.toNat = 133

def pyStrip (s : String) : String :=
  String.mk (((s.toList.dropWhile pyWsChar).reverse.dropWhile pyWsChar).reverse)

def lineBreakChar (c : Char) : Bool :=
  c = '\n' || c = '\r' || c.toNat = 11 || c.toNat = 12 ||
  c.toNat = 28 || c.toNat = 29 || c.toNat = 30 || c.toNat = 133 ||
  c.toNat = 8232 || c.toNat = 8233

def pySplitlinesGo : List Char → List Char → List (List Char)
  | [], cur => if cur.isEmpty then [] else [cur]
  | '\r' :: '\n' :: rest, cur => cur :: pySplitlinesGo rest []
  | c :: rest, cur =>
    if lineBreakChar c then cur :: pySplitlinesGo rest []
    else pySplitlinesGo rest (cur ++ [c])

def pySplitlines (s : String) : List String :=
  (pySplitlinesGo s.toList []).map String.mk

/-! ### Chunking service (`app/services/chunking.py`) -/

/-- Embedding of `chunking._tok_count`.  The source prefers `tiktoken` when that
optional dependency is importable and otherwise approximates as
`ceil(chars / 4)`; we model the deterministic fallback.  No claim below
depends on which tokenizer is active. -/
def tok_count (s : String) : ℕ := (s.length + 3) / 4

/-- Embedding of `chunking._norm_text`: replace NBSP by space, strip each line,
drop blank lines, rejoin with single newlines. -/
def norm_text (s : String) : String :=
  let s1 := String.mk (s.toList.map fun c => if c.toNat = 160 then ' ' else c)
  let lines := (pySplitlines s1).map pyStrip
  pyStrip (String.intercalate "\n" (lines.filter (· ≠ "")))

structure BlockMeta where
  headers : List String := []
  level : Option ℕ := none
  rowsN : Option ℕ := none
  colsN : Option ℕ := none
  html : Option String := none
deriving Repr, DecidableEq

/-- A persisted extracted block row (`blocks` table) as read by
`ChunkingService.run_one` and `KnowledgeGraphService.build`. -/
structure Block where
  block_id : String
  type : String
  text : String
  page : Option ℕ
  span_start : ℕ
  span_end : ℕ
  meta : BlockMeta
deriving Repr, DecidableEq

structure RowMeta where
  types : List String
  source_block_ids : List String
  tokens : ℕ
  strategy : String
  context_headers : List String := []
  rowsN : Option ℕ := none
  colsN : Option ℕ := none
  html : Option String := none
deriving Repr, DecidableEq

/-- A chunk row as assembled by the chunking strategies.  The `uuid4`-generated
`chunk_id`/`plan_id`/`doc_id` fields are fresh opaque identifiers with no role
in any claim and are omitted from the model. -/
structure Row where
  span_start : ℕ
  span_end : ℕ
  page_start : ℕ
  page_end : ℕ
  text : String
  meta : RowMeta
  checksum : String
deriving Repr, DecidableEq

/-- Every chunk-row literal in `chunking.py` sets `"checksum": _checksum(txt)`
for the row's text; this smart constructor captures that shape. -/
def mkRow (ss se ps pe : ℕ) (text : String) (meta : RowMeta) : Row :=
  ⟨ss, se, ps, pe, text, meta, checksum text⟩

/-- Python `b["page"] or 1`: `None` and `0` both become 1. -/
def pageOr1 : Option ℕ → ℕ
  | some p => if p = 0 then 1 else p
  | none => 1

def natMin (l : List ℕ) : ℕ :=
  match l with
  | [] => 0
  | x :: xs => xs.foldl min x

def natMax (l : List ℕ) : ℕ :=
  match l with
  | [] => 0
  | x :: xs => xs.foldl max x

def dedupKeepGo {α : Type} [DecidableEq α] (seen : List α) : List α → List α
  | [] => []
  | h :: t => if h ∈ seen then dedupKeepGo seen t else h :: dedupKeepGo (h :: seen) t

/-- First-occurrence deduplication (Python `dict.fromkeys` order). -/
def dedupKeep {α : Type} [DecidableEq α] (l : List α) : List α := dedupKeepGo [] l

/-- Embedding of `list(sorted(set(xs)))` for strings. -/
def sortedUnique (l : List String) : List String :=
  (dedupKeep l).mergeSort fun a b => decide (a ≤ b)

def dedupNonemptyGo (acc : List String) : List String → List String
  | [] => acc
  | h :: t => if h ≠ "" ∧ h ∉ acc then dedupNonemptyGo (acc ++ [h]) t else dedupNonemptyGo acc t

/-- Order-preserving dedup of non-empty strings.  `_make_tiny` keeps `h` when
`h and h not in header_paths[:i]` and `_pack_narrative` keeps `item` when
`item and item not in context_headers`; for non-empty items both rules keep
exactly the first occurrence, so they denote the same function. -/
def dedupNonempty (l : List String) : List String := dedupNonemptyGo [] l

def totalChars (blocks : List Block) : ℕ := (blocks.map fun b => b.text.length).sum

/-- Embedding of the strategy selection in `ChunkingService.run_one`
(`chunking.py` lines 117-129). -/
def strategyOf (blocks : List Block) : String :=
  let total_chars := totalChars blocks
  let tableBs := blocks.filter fun b => b.type = "table"
  let table_chars := (tableBs.map fun b => b.text.length).sum
  let table_density : ℚ := if total_chars = 0 then 0 else (table_chars : ℚ) / total_chars
  let has_big_table := tableBs.any fun b => b.meta.rowsN.getD 0 ≥ 3
  let tiny_doc := total_chars < 600
  if tableBs ≠ [] then "layout"
  else
    let layout_mode := (table_density ≥ 25 / 100 ∨ has_big_table) ∧ ¬tiny_doc
    if tiny_doc then "tiny" else if layout_mode then "layout" else "section"

/-- Embedding of `_make_tiny`.  Returns `none` when every non-empty block lacks
a page number: Python's `min(...)` over the empty generator raises
`ValueError` there. -/
def make_tiny (blocks : List Block) (rootCtx : Option String) : Option (List Row) :=
  let nonempty := blocks.filter fun b => pyStrip b.text ≠ ""
  if nonempty.isEmpty then some []
  else
    let headerPaths := nonempty.flatMap fun b => b.meta.headers
    let ctx0 := dedupNonempty headerPaths
    let context_headers := match rootCtx with
      | some r => r :: ctx0
      | none => ctx0
    let txt0 := norm_text (String.intercalate "\n\n" (nonempty.map Block.text))
    let txt :=
      if context_headers ≠ [] then
        norm_text (String.intercalate " / " context_headers ++ "\n\n" ++ txt0)
      else txt0
    let pages := nonempty.filterMap Block.page
    if pages.isEmpty then none
    else
      let pmin := natMin pages
      let pmax := natMax pages
      let page_start := if pmin = 0 then 1 else pmin
      let page_end := if pmax = 0 then page_start else pmax
      let span_s := natMin (nonempty.map Block.span_start)
      let span_e := natMax (nonempty.map Block.span_end)
      some [mkRow span_s span_e page_start page_end txt
        ⟨sortedUnique (nonempty.map Block.type), nonempty.map Block.block_id,
         tok_count txt, "tiny", context_headers, none, none, none⟩]

/-- One chunk per table block (`_make_layout` / `_make_section` table loop).
`_enrich_chunk` is the identity in the source (enrichment is deferred to the
parallel pass), so the text is unchanged here. -/
def tableRow (strategy : String) (rootCtx : Option String) (b : Block) : Row :=
  let txt := norm_text b.text
  let headers_ctx := match rootCtx with
    | some r => r :: b.meta.headers
    | none => b.meta.headers
  mkRow b.span_start b.span_end (pageOr1 b.page) (pageOr1 b.page) txt
    ⟨["table"], [b.block_id], tok_count txt, strategy, headers_ctx,
     b.meta.rowsN, b.meta.colsN, b.meta.html⟩

/-- A packing segment (`segs` entries in `_pack_narrative`). -/
structure Seg where
  text : String
  span_start : ℕ
  span_end : ℕ
  page : ℕ
  stype : String
  block_id : String
  tokens : ℕ
  headers : List String
deriving Repr, DecidableEq, Inhabited

def headerTypes : List String := ["h1", "h2", "h3", "h4", "h5", "h6", "header"]

/-- Embedding of the `\x60list\x60 → bullet lines` conversion. -/
def bulletize (s : String) : String :=
  let lines := ((pySplitlines s).map pyStrip).filter (· ≠ "")
  String.intercalate "\n" (lines.map fun ln => "• " ++ ln)

/-- Header level resolution in `_pack_narrative`:
`int(meta.get("level") or (int(b["type"][1]) if b["type"].startswith("h") else 2))`.
For the literal type `"header"` with a falsy `level` the inner expression is
`int("e")`, which raises `ValueError`; `none` models that crash. -/
def headerLevelFallback (b : Block) : Option ℕ :=
  if b.type.startsWith "h" then
    let c := b.type.toList.getD 1 'x'
    if c.isDigit then some (c.toNat - 48) else none
  else some 2

def headerLevel (b : Block) : Option ℕ :=
  match b.meta.level with
  | some l => if l ≠ 0 then some l else headerLevelFallback b
  | none => headerLevelFallback b

/-- Python `headers[level] = txt` followed by popping all deeper levels, over a
level-sorted association list. -/
def setHeader (hm : List (ℕ × String)) (level : ℕ) (txt : String) : List (ℕ × String) :=
  (hm.filter fun p => p.1 < level) ++ [(level, txt)]

/-- Segment construction loop of `_pack_narrative` (header-chain maintenance,
bulletized lists, header-path prefixes).  `none` models the `ValueError` crash
of `headerLevel`. -/
def buildSegsGo (include_headers : Bool) (rootCtx : Option String) :
    List (ℕ × String) → List Block → Option (List Seg)
  | _, [] => some []
  | hm, b :: rest =>
    if b.type ∈ headerTypes then
      match headerLevel b with
      | none => none
      | some level => buildSegsGo include_headers rootCtx (setHeader hm level (norm_text b.text)) rest
    else
      let txt0 := if b.type = "list" then bulletize b.text else b.text
      let txt := norm_text txt0
      if txt = "" then buildSegsGo include_headers rootCtx hm rest
      else
        let chainMeta := b.meta.headers
        let chain1 :=
          if include_headers ∧ chainMeta = [] ∧ hm ≠ [] then hm.map Prod.snd else chainMeta
        let chain :=
          if include_headers then
            match rootCtx with
            | some r => r :: chain1
            | none => chain1
          else chain1
        let pfx := if include_headers ∧ chain ≠ [] then pyStrip (String.intercalate " / " chain) else ""
        let full := if pfx ≠ "" then pfx ++ "\n\n" ++ txt else txt
        (buildSegsGo include_headers rootCtx hm rest).map fun segs =>
          ⟨full, b.span_start, b.span_end, pageOr1 b.page, b.type, b.block_id,
           tok_count full, chain⟩ :: segs

def buildSegs (blocks : List Block) (include_headers : Bool) (rootCtx : Option String) :
    Option (List Seg) :=
  buildSegsGo include_headers rootCtx [] blocks

/-- Inner greedy loop: `while j < len and toks_sum + tokens[j] <= target`. -/
def greedyEnd (target : ℕ) (toks : List ℕ) (j acc : ℕ) : ℕ :=
  if j < toks.length ∧ acc + toks.getD j 0 ≤ target then
    greedyEnd target toks (j + 1) (acc + toks.getD j 0)
  else j
termination_by toks.length - j
decreasing_by omega

/-- Backtrack loop realizing overlap:
`k = j-1; while k > i and back > 0: back -= tokens[k]; k -= 1`.
Saturating `ℕ` subtraction on `back` leaves the loop's exit point (and hence
`k`) identical to Python's signed arithmetic. -/
def backtrack (toks : List ℕ) (i k back : ℕ) : ℕ :=
  if k > i ∧ back > 0 then backtrack toks i (k - 1) (back - toks.getD k 0)
  else k
termination_by k - i
decreasing_by omega

def sepList : List String := ["\n\n", "\n", ". ", "? ", "! ", "; ", ", ", " "]

/-- Embedding of `_split_keep_sep`. -/
def split_keep_sep (text : String) (sep : String) : List String :=
  if text = "" then []
  else if pyStrip sep = "" then text.splitOn sep
  else
    match text.splitOn sep with
    | [] => []
    | c0 :: cs => (c0 :: cs.map fun c => sep ++ c).filter (· ≠ "")

def partsLoop (text : String) : List String → List String → List String
  | acc, [] => acc
  | acc, sep :: rest => if acc.length > 1 then acc else partsLoop text (split_keep_sep text sep) rest

/-- Separator cascade at the top of `_split_long_segment`. -/
def chooseParts (text : String) (target : ℕ) : List String :=
  if tok_count text ≤ target then [text] else partsLoop text [text] sepList

def hardSliceGo (a : ℕ) : List Char → List (List Char)
  | [] => []
  | c :: rest => (c :: rest.take a) :: hardSliceGo a (rest.drop a)
termination_by l => l.length
decreasing_by simp [List.length_drop]; omega

/-- Embedding of `_hard_slice`: fixed windows of `target_tokens * 4` chars.
With the source's positive targets `approx` is never 0 (Python would loop
forever there); the guard keeps the model total. -/
def hard_slice (text : String) (target_tokens : ℕ) : List String :=
  let approx := target_tokens * 4
  if approx = 0 then [text]
  else (hardSliceGo (approx - 1) text.toList).map String.mk

/-- Packing loop of `_split_long_segment` over the atomic parts. -/
def splitPackLoop (target overlap : ℕ) (seg : Seg) (parts : List String) (i : ℕ) : List Row :=
  if hi : i < parts.length then
    let toks := parts.map tok_count
    let j := greedyEnd target toks i 0
    let buf := (parts.drop i).take (j - i)
    let chunk_text := norm_text (String.join buf)
    let row := mkRow seg.span_start seg.span_end seg.page seg.page chunk_text
      ⟨[seg.stype], [seg.block_id], tok_count chunk_text, "pack:split", seg.headers,
       none, none, none⟩
    if j ≥ parts.length then [row]
    else
      let ov := if seg.stype = "table" then 0 else overlap
      let k := backtrack toks i (j - 1) ov
      row :: splitPackLoop target overlap seg parts (max (i + 1) (k + 1))
  else []
termination_by parts.length - i
decreasing_by omega

/-- Embedding of `_split_long_segment`. -/
def split_long_segment (target overlap : ℕ) (seg : Seg) : List Row :=
  let parts0 := chooseParts seg.text target
  let parts :=
    if parts0.length = 1 ∧ tok_count (parts0.headD "") > target then
      hard_slice (parts0.headD "") target
    else parts0
  splitPackLoop target overlap seg parts 0

/-- Bit length of a natural number (Python's `int.bit_length`), with the
number itself as structural fuel so that it evaluates by kernel reduction
(for `n ≥ 1` the bit length is at most `n`). -/
def bitLenGo : ℕ → ℕ → ℕ
  | 0, _ => 0
  | fuel + 1, n => if n = 0 then 0 else bitLenGo fuel (n / 2) + 1

def bitLen (n : ℕ) : ℕ := bitLenGo n n

/-- `int(t * 0.7)` exactly as CPython evaluates it for `t < 2^53`: the double
literal `0.7` is `6305039478318694 / 2^53`, the product `t * 0.7` is the exact
product rounded to the nearest representable double (53-bit significand, ties
to even), and `int` truncates toward zero.  This differs from `7 * t / 10` at
some inputs (e.g. `int(350 * 0.7) = 244`). -/
def intMul07 (t : ℕ) : ℕ :=
  let N := t * 6305039478318694
  if N < 2 ^ 53 then 0
  else
    let s := bitLen N - 53
    let q := N / 2 ^ s
    let r := N % 2 ^ s
    let q2 := if 2 * r > 2 ^ s ∨ (2 * r = 2 ^ s ∧ q % 2 = 1) then q + 1 else q
    q2 * 2 ^ s / 2 ^ 53

/-- Main greedy packing loop of `_pack_narrative`. -/
def packLoop (target overlap : ℕ) (segs : List Seg) (i : ℕ) : List Row :=
  if hi : i < segs.length then
    let s := segs.getD i default
    if s.tokens > target then
      split_long_segment target overlap s ++ packLoop target overlap segs (i + 1)
    else
      let toks := segs.map Seg.tokens
      let j := greedyEnd target toks i 0
      let win := (segs.drop i).take (j - i)
      let chunk_text := norm_text (String.intercalate "\n\n" (win.map Seg.text))
      let row := mkRow s.span_start (natMax (win.map Seg.span_end)) s.page
        (natMax (win.map Seg.page)) chunk_text
        ⟨sortedUnique (win.map Seg.stype), win.map Seg.block_id, tok_count chunk_text,
         "pack", dedupNonempty (win.flatMap Seg.headers), none, none, none⟩
      if j ≥ segs.length then [row]
      else
        let ov :=
          if s.stype = "list" ∨ s.stype = "header" then overlap / 2
          else if s.tokens > intMul07 target then 3 * overlap / 2
          else overlap
        let k := backtrack toks i (j - 1) ov
        row :: packLoop target overlap segs (max (i + 1) (k + 1))
  else []
termination_by segs.length - i
decreasing_by all_goals omega

/-- Merged row of the tiny-orphan post-pass: text concatenated with a blank
line, spans/pages extended, token counts added, source block ids appended, and
the checksum recomputed from the new text. -/
def mergeRows (prev curr : Row) : Row :=
  let text := prev.text ++ "\n\n" ++ curr.text
  { prev with
    text := text
    span_end := curr.span_end
    page_end := max prev.page_end curr.page_end
    meta := { prev.meta with
      tokens := prev.meta.tokens + curr.meta.tokens
      source_block_ids := prev.meta.source_block_ids ++ curr.meta.source_block_ids }
    checksum := checksum text }

/-- Accumulator loop of the tiny-orphan merge pass.  The source merges when
`curr["meta"]["tokens"] < 50 and prev["meta"]["tokens"] < (target * 1.2)`;
the float comparison `tokens < target * 1.2` agrees with the exact rational
comparison `5 * tokens < 6 * target` on every integer token count (the
IEEE-754 product never crosses an integer relative to the exact product). -/
def mergeGo (target : ℕ) : Row → List Row → List Row
  | prev, [] => [prev]
  | prev, curr :: rest =>
    if curr.meta.tokens < 50 ∧ 5 * prev.meta.tokens < 6 * target then
      mergeGo target (mergeRows prev curr) rest
    else
      prev :: mergeGo target curr rest

/-- Tiny-orphan merge post-pass of `_pack_narrative` (guarded by
`len(rows) > 1`). -/
def mergeTinyOrphans (target : ℕ) (rows : List Row) : List Row :=
  match rows with
  | [] => []
  | [r] => [r]
  | r :: rest => mergeGo target r rest

structure ChunkCfg where
  target_tokens : ℕ := 800
  overlap_tokens : ℕ := 120
  max_chunks_per_doc : ℕ := 5000
deriving Repr

/-- Adaptive target of `_pack_narrative`: reduced for code-heavy (`pre`) or
list-heavy block mixes.  `int(target*0.8)`, `int(target*0.85)` and
`int(0.2*len)` equal the floor of the exact rational products on these
magnitudes. -/
def adaptiveTarget (target_tokens : ℕ) (kinds : List String) : ℕ :=
  let t1 := if kinds.contains "pre" then max 300 (4 * target_tokens / 5) else target_tokens
  if kinds.count "list" ≥ max 2 (kinds.length / 5) then max 350 (17 * t1 / 20) else t1

/-- Embedding of `_pack_narrative` (rows only; the coverage ratio feeds only
warnings, which no claim mentions). -/
def pack_narrative (cfg : ChunkCfg) (blocks : List Block) (include_headers : Bool)
    (rootCtx : Option String) : Option (List Row) :=
  if blocks = [] then some []
  else
    let target := adaptiveTarget cfg.target_tokens (blocks.map Block.type)
    match buildSegs blocks include_headers rootCtx with
    | none => none
    | some segs =>
      if segs = [] then some []
      else some (mergeTinyOrphans target (packLoop target cfg.overlap_tokens segs 0))

/-- Embedding of `_make_layout`: one chunk per table block plus narrative
packing of the non-table blocks. -/
def make_layout (cfg : ChunkCfg) (blocks : List Block) (rootCtx : Option String) :
    Option (List Row) :=
  let tables := (blocks.filter fun b => b.type = "table").map (tableRow "layout" rootCtx)
  let narr := blocks.filter fun b => b.type ≠ "table" ∧ pyStrip b.text ≠ ""
  (pack_narrative cfg narr true rootCtx).map fun rows2 => tables ++ rows2

/-- Embedding of `_make_section`: identical table handling with strategy tag
`section`, plus narrative packing. -/
def make_section (cfg : ChunkCfg) (blocks : List Block) (rootCtx : Option String) :
    Option (List Row) :=
  let tables := (blocks.filter fun b => b.type = "table").map (tableRow "section" rootCtx)
  let narr := blocks.filter fun b => b.type ≠ "table" ∧ pyStrip b.text ≠ ""
  (pack_narrative cfg narr true rootCtx).map fun rows2 => tables ++ rows2

/-- Embedding of the per-row rewrite in `_enrich_rows_parallel`.  The LLM call
is modelled by an oracle; `none` covers a disabled provider, an exception, or
a falsy completion, all of which leave the row unchanged.  On success the
completion is prepended in brackets and checksum and token count are
recomputed. -/
def enrichRow (oracle : Row → Option String) (r : Row) : Row :=
  if r.meta.context_headers ≠ [] then
    match oracle r with
    | some c =>
      if c ≠ "" then
        let text := "[" ++ pyStrip c ++ "]\n" ++ r.text
        { r with text := text, checksum := checksum text
                 meta := { r.meta with tokens := tok_count text } }
      else r
    | none => r
  else r

def enrichRows (oracle : Row → Option String) (rows : List Row) : List Row :=
  rows.map (enrichRow oracle)

/-- Root context injected by `run_one`: the document filename in brackets when
known and non-empty. -/
def rootContextOf (filename : Option String) : Option String :=
  match filename with
  | some f => if f ≠ "" then some ("[Document: " ++ f ++ "]") else none
  | none => none

/-- Embedding of `ChunkingService.run_one`: strategy selection, row
materialization, contextual enrichment, and the `max_chunks_per_doc` cap.
`none` models the raised errors (`no_blocks`, or the `ValueError` crashes
inside the strategies).  Database bookkeeping (plan insert, event rows,
deletion of prior chunks) carries no claim-relevant data. -/
def run_one (cfg : ChunkCfg) (oracle : Row → Option String) (blocks : List Block)
    (filename : Option String) : Option (String × List Row) :=
  if blocks = [] then none
  else
    let strat := strategyOf blocks
    let rootCtx := rootContextOf filename
    let rows? :=
      if strat = "tiny" then make_tiny blocks rootCtx
      else if strat = "layout" then make_layout cfg blocks rootCtx
      else make_section cfg blocks rootCtx
    rows?.map fun rows0 =>
      let rows1 := enrichRows oracle rows0
      (strat, if rows1.length > cfg.max_chunks_per_doc then rows1.take cfg.max_chunks_per_doc else rows1)

/-- Rows inserted by a `run_one` call (none when the call raised). -/
def rowsOfRun (cfg : ChunkCfg) (oracle : Row → Option String) (blocks : List Block)
    (filename : Option String) : List Row :=
  match run_one cfg oracle blocks filename with
  | none => []
  | some (_, rs) => rs

/-! ### Embedding service (`app/services/embedder.py`)

`EmbeddingService.run_one` computes a checksum delta between the current
chunk rows and the points already in the vector index, upserts one point per
changed chunk, and deletes points whose chunk id is gone.  The embedding
engines all return vectors of the expected dimension (each needed chunk yields
exactly one upserted point); batching merely partitions the needed list, so
the model tracks operation counts directly. -/

/-- Current chunk row as seen by the delta computation (only `chunk_id` and
`checksum` participate; the text/meta feed the embedded vector, which no claim
mentions). -/
structure EChunk where
  chunk_id : String
  checksum : String
deriving Repr, DecidableEq

/-- Lookup in the `chunk_id → checksum` map scrolled from the vector index
(`existing.get(cid)`); point ids are unique, so first-match lookup is the
dict lookup. -/
def lookupChecksum (existing : List (String × String)) (cid : String) : Option String :=
  (existing.find? fun p => p.1 = cid).map Prod.snd

/-- Embedding of `need_ids`/`need_chunks`:
`existing.get(cid) != str(c.get("checksum"))` (a missing point also counts as
needed). -/
def need_chunks (chunks : List EChunk) (existing : List (String × String)) : List EChunk :=
  chunks.filter fun c => lookupChecksum existing c.chunk_id ≠ some c.checksum

/-- Embedding of `stale_ids`: `[cid for cid in existing.keys() if cid not in by_id]`. -/
def stale_ids (chunks : List EChunk) (existing : List (String × String)) : List String :=
  (existing.map Prod.fst).filter fun cid => ¬ (chunks.map EChunk.chunk_id).contains cid

/-- Operations performed by one `EmbeddingService.run_one` call: number of
upserted points and the list of deleted point ids. -/
def run_one_ops (chunks : List EChunk) (existing : List (String × String)) : ℕ × List String :=
  ((need_chunks chunks existing).length, stale_ids chunks existing)

/-! ### Generation service (`app/services/generation.py`) -/

def isAsciiAlnum (c : Char) : Bool := c.isAlpha || c.isDigit

def alnumRunsGo : List Char → List Char → List String
  | [], cur => if cur.isEmpty then [] else [String.mk cur.reverse]
  | c :: rest, cur =>
    if isAsciiAlnum c then alnumRunsGo rest (c :: cur)
    else if cur.isEmpty then alnumRunsGo rest []
    else String.mk cur.reverse :: alnumRunsGo rest []

/-- Embedding of `_token_set`'s tokenization:
`re.split(r"[^A-Za-z0-9]+", s.lower())` (the empty boundary fragments the
regex split produces are filtered out by the length bound anyway). -/
def alnumTokens (s : String) : List String :=
  alnumRunsGo (s.toList.map Char.toLower) []

/-- Embedding of `generation._token_set`: lowercased alphanumeric tokens of
length at least 3, as a set. -/
def token_set (s : String) : Finset String :=
  ((alnumTokens s).filter fun t => t.length ≥ 3).toFinset

def isWordChar (c : Char) : Bool := c.isAlpha || c.isDigit || c = '_'

def boundaryAfter (l : List Char) : Bool :=
  match l with
  | [] => true
  | x :: _ => ¬ isWordChar x

def leftBoundary (prev : Option Char) : Bool :=
  match prev with
  | some p => ¬ isWordChar p
  | none => true

theorem dropWhileLenLe (p : Char → Bool) (l : List Char) :
    (l.dropWhile p).length ≤ l.length := by
  induction l with
  | nil => simp
  | cons a t ih =>
    by_cases h : p a
    · simp [List.dropWhile, h]; omega
    · simp [List.dropWhile, h]

/-- Scanner for `re.findall(r"\x5cb\x5cd+(?:[\x5c.,]\x5cd+)?\x5cb", s)`.
At a digit with a word boundary on its left, the regex takes the maximal digit
run; a `.`/`,` followed by digits extends the match only when the extension
ends at a word boundary (shrinking the extension always leaves a digit next,
so partial extensions can never satisfy the boundary), and otherwise the base
run matches because the separator itself is a non-word character. -/
def numbersGo : Option Char → List Char → List String
  | _, [] => []
  | prev, c :: rest =>
    if c.isDigit ∧ leftBoundary prev then
      let run1 := c :: rest.takeWhile Char.isDigit
      match h1 : rest.dropWhile Char.isDigit with
      | sep :: d :: rest2 =>
        if (sep = '.' ∨ sep = ',') ∧ d.isDigit then
          let run2 := d :: rest2.takeWhile Char.isDigit
          let after2 := rest2.dropWhile Char.isDigit
          if boundaryAfter after2 then
            String.mk (run1 ++ [sep] ++ run2) :: numbersGo (some (run2.getLastD d)) after2
          else
            String.mk run1 :: numbersGo (some (run1.getLastD c)) (sep :: d :: rest2)
        else if boundaryAfter (sep :: d :: rest2) then
          String.mk run1 :: numbersGo (some (run1.getLastD c)) (sep :: d :: rest2)
        else numbersGo (some c) rest
      | [] => [String.mk run1]
      | [x] =>
        if boundaryAfter [x] then String.mk run1 :: numbersGo (some (run1.getLastD c)) [x]
        else numbersGo (some c) rest
    else numbersGo (some c) rest
termination_by _ l => l.length
decreasing_by
  all_goals simp only [List.length_cons]
  all_goals have hle := dropWhileLenLe Char.isDigit rest
  all_goals try rw [h1] at hle
  all_goals try have hle2 := dropWhileLenLe Char.isDigit rest2
  all_goals simp_all
  all_goals omega

/-- Embedding of `generation._numbers_in`. -/
def numbers_in (s : String) : List String := numbersGo none s.toList

/-- Floor of a rational, computably (`⌊x⌋ = x.num / x.den`, `Rat.floor_def`). -/
def qfloor (x : ℚ) : ℤ := x.num / x.den

/-- Python `round(x, 3)` rounds half to even; float arithmetic is modelled as
exact rational arithmetic. -/
def pyRoundHalfEven (x : ℚ) : ℤ :=
  let f := qfloor x
  let r := x - f
  if r < 1 / 2 then f else if 1 / 2 < r then f + 1 else if f % 2 = 0 then f else f + 1

def round3 (x : ℚ) : ℚ := (pyRoundHalfEven (x * 1000) : ℚ) / 1000

/-- Embedding of `generation._groundedness`.  The number ratio defaults to the
token ratio when the answer contains no numbers (`num_score = ... if anum else
base`), and the result is rounded to three decimals.  The weights 0.4/0.6 are
the exact rationals the source floats denote (to within one double ulp, which
the rounding analysis absorbs). -/
def groundedness (answer context : String) : ℚ :=
  let ats := token_set answer
  let cts := token_set context
  if ats = ∅ then 0
  else
    let base : ℚ := ((ats ∩ cts).card : ℚ) / (max 1 ats.card : ℕ)
    let anum := (numbers_in answer).toFinset
    let cnum := (numbers_in context).toFinset
    let num_score : ℚ :=
      if anum = ∅ then base else ((anum ∩ cnum).card : ℚ) / (max 1 anum.card : ℕ)
    round3 (4 / 10 * base + 6 / 10 * num_score)

/-- The groundedness formula exactly as claim C8 words it: 0.4 times the token
overlap ratio plus 0.6 times the number overlap ratio, for every answer
(a no-number answer has number ratio 0). -/
def groundedness_claimC8 (answer context : String) : ℚ :=
  let ats := token_set answer
  let cts := token_set context
  let anum := (numbers_in answer).toFinset
  let cnum := (numbers_in context).toFinset
  4 / 10 * (((ats ∩ cts).card : ℚ) / (max 1 ats.card : ℕ)) +
    6 / 10 * (((anum ∩ cnum).card : ℚ) / (max 1 anum.card : ℕ))

/-- Embedding of `generation._extract_cite_nums`.  The source pattern
`[\x5c^(\x5c\x5cd+)]` is a character class matching one of the characters
caret, parenthesis, backslash, letter d, plus sign; it contains no capture
group, so `m.group(1)` on the first match raises `IndexError`, the bare
`except` returns `[]`, and with no match the comprehension is empty.  The
function therefore returns `[]` on every input. -/
def extract_cite_nums (s : String) : List ℤ :=
  match s.toList.find? (fun c => c ∈ (['^', '(', '\\', 'd', '+', ')'] : List Char)) with
  | some _ => []
  | none => []

def intOfDigits (ds : List Char) : ℤ := ds.foldl (fun a c => a * 10 + (c.toNat - 48)) 0

def markersGo : List Char → List ℤ
  | [] => []
  | '[' :: '^' :: rest =>
    let ds := rest.takeWhile Char.isDigit
    let rest2 := rest.dropWhile Char.isDigit
    if ds ≠ [] ∧ rest2.head? = some ']' then intOfDigits ds :: markersGo rest2
    else markersGo (('^' : Char) :: rest)
  | _ :: rest => markersGo rest
termination_by l => l.length
decreasing_by
  all_goals simp only [List.length_cons]
  all_goals have hle := dropWhileLenLe Char.isDigit rest
  all_goals omega

/-- The `[^n]` footnote markers of an answer, in order of first occurrence:
the behaviour the spec (and the surrounding code) intend for
`_extract_cite_nums`, whose regex was evidently meant to be
`\x5c[\x5c^(\x5cd+)\x5c]`. -/
def citation_markers (s : String) : List ℤ := dedupKeep (markersGo s.toList)

/-- Embedding of the citation-repair block in `GenerationService.answer`
(lines 485-490): when the parsed citations are empty, fall back to
`_extract_cite_nums` filtered to packed footnote numbers, then to the first
two footnotes. -/
def repair_citations (parsed : List ℤ) (answer : String) (footnotes : List ℤ) : List ℤ :=
  if parsed ≠ [] then parsed
  else
    let nums := extract_cite_nums answer
    let c1 := if nums ≠ [] then nums.filter (fun n => footnotes.any (· = n)) else []
    if c1 ≠ [] then c1 else footnotes.take 2

/-! ### Ingestion service (`app/services/ingestion.py`) -/

structure IngestCfg where
  max_files_per_request : ℕ := 10
  max_filename_len : ℕ := 200
  disallowed_exts : List String := [".js", ".exe", ".sh", ".bat", ".dll", ".msi", ".apk", ".bin"]
  max_file_mb : ℕ := 50
  allowed_mime_prefixes : List String := []
  strict_mode : Bool := false
deriving Repr

/-- An upload after hashing and MIME detection: `compute_hashes_to_tmp` plus
`detect_mime_from_file` have already run (they are I/O). -/
structure Upload where
  filename : Option String
  size_bytes : ℕ
  mime : String
  sha256 : String
deriving Repr, DecidableEq

structure IngestItem where
  doc_id : Option String
  sha256 : String
  state : String
  size_bytes : ℕ
  mime : String
  uri : String
  duplicate : Bool
  minio_key : Option String
  events : List String
  warnings : List String
deriving Repr, DecidableEq

structure DbEvent where
  stage : String
  status : String
  event : String
deriving Repr, DecidableEq

/-- Store side effects of one upload. -/
inductive StoreAction where
  | putObject (sha : String)
  | upsertBlob (sha : String)
  | insertDocument (doc_id : String)
deriving Repr, DecidableEq

structure IngestOutcome where
  item : IngestItem
  events : List DbEvent
  actions : List StoreAction
deriving Repr, DecidableEq

/-- Embedding of `MinioStore.build_key_for_sha256`. -/
def sha256Key (sha : String) : String :=
  "sha256/" ++ String.mk (sha.toList.take 2) ++ "/" ++ String.mk ((sha.toList.drop 2).take 2) ++
    "/" ++ sha

/-- Embedding of `os.path.splitext(...)[1]`: the suffix from the last dot,
valid only when a character before that dot is not itself a dot (CPython's
leading-dot rule; upload filenames carry no directory separators). -/
def splitextExt (fname : String) : String :=
  let cs := fname.toList
  if '.' ∈ cs then
    let ridx := cs.reverse.indexOf '.'
    let dotIndex := cs.length - 1 - ridx
    if (cs.take dotIndex).any (· ≠ '.') then String.mk (cs.drop dotIndex) else ""
  else ""

def pyLower (s : String) : String := String.mk (s.toList.map Char.toLower)

/-- Python `upload.filename or "unnamed"`. -/
def uploadFname (u : Upload) : String :=
  match u.filename with
  | some f => if f = "" then "unnamed" else f
  | none => "unnamed"

/-- The lowercased extension checked against the disallowed set. -/
def uploadExt (u : Upload) : String := pyLower (splitextExt (uploadFname u))

def lenViol (cfg : IngestCfg) (u : Upload) : Prop :=
  (uploadFname u).length > cfg.max_filename_len

def extViol (cfg : IngestCfg) (u : Upload) : Prop :=
  uploadExt u ≠ "" ∧ uploadExt u ∈ cfg.disallowed_exts

def sizeViol (cfg : IngestCfg) (u : Upload) : Prop :=
  u.size_bytes > cfg.max_file_mb * 1024 * 1024

def mimeViol (cfg : IngestCfg) (u : Upload) : Prop :=
  cfg.allowed_mime_prefixes ≠ [] ∧ ¬ cfg.allowed_mime_prefixes.any (fun p => u.mime.startsWith p)

instance (cfg : IngestCfg) (u : Upload) : Decidable (lenViol cfg u) := by
  unfold lenViol; infer_instance

instance (cfg : IngestCfg) (u : Upload) : Decidable (extViol cfg u) := by
  unfold extViol; infer_instance

instance (cfg : IngestCfg) (u : Upload) : Decidable (sizeViol cfg u) := by
  unfold sizeViol; infer_instance

instance (cfg : IngestCfg) (u : Upload) : Decidable (mimeViol cfg u) := by
  unfold mimeViol; infer_instance

/-- An upload that violates none of the four per-file policy gates. -/
def noPolicyViol (cfg : IngestCfg) (u : Upload) : Prop :=
  ¬ lenViol cfg u ∧ ¬ extViol cfg u ∧ ¬ sizeViol cfg u ∧ ¬ mimeViol cfg u

/-- Embedding of the per-file worker `_process_one` inside
`IngestionService.store_many`.  `findDoc` is `db.find_doc_by_hash` for the
fixed tenant; `newId` the uuid the new-document branch would mint;
`guessMime` is `mimetypes.guess_type(fname)[0]`; `statSize` the object-store
stat result (`none` = the stat call raised).  Policy gates run in source
order: filename length, extension, empty file (rejected regardless of
`strict_mode`), oversize, MIME allowlist; then deduplication; then store. -/
def process_one (cfg : IngestCfg) (findDoc : String → Option String) (newId : String)
    (guessMime : Option String) (statSize : Option ℕ) (srcUri : Option String)
    (u : Upload) : IngestOutcome :=
  let fname := uploadFname u
  let uri := match srcUri with
    | some s => if s = "" then fname else s
    | none => fname
  let lenWarnStr := "filename too long (> " ++ toString cfg.max_filename_len ++ ")"
  let ev1 : List DbEvent :=
    if lenViol cfg u then [⟨"STORED", "WARN", "DOC_REJECTED_FILENAME_LEN"⟩] else []
  if cfg.strict_mode ∧ lenViol cfg u then
    ⟨⟨none, "", "REJECTED", u.size_bytes, u.mime, uri, false, none,
      ["DOC_REJECTED_FILENAME_LEN"], [lenWarnStr]⟩, ev1, []⟩
  else
    let w1 := if lenViol cfg u then [lenWarnStr] else []
    let extWarnStr := "disallowed extension: " ++ uploadExt u
    let ev2 := ev1 ++ (if extViol cfg u then [⟨"STORED", "WARN", "DOC_REJECTED_EXTENSION"⟩] else [])
    if cfg.strict_mode ∧ extViol cfg u then
      ⟨⟨none, "", "REJECTED", u.size_bytes, u.mime, uri, false, none,
        ["DOC_REJECTED_EXTENSION"], [extWarnStr]⟩, ev2, []⟩
    else
      let w2 := w1 ++ (if extViol cfg u then [extWarnStr] else [])
      if u.size_bytes = 0 then
        ⟨⟨none, "", "REJECTED", 0, u.mime, uri, false, none,
          ["DOC_REJECTED_EMPTY"], ["empty file"]⟩,
         ev2 ++ [⟨"STORED", "WARN", "DOC_REJECTED_EMPTY"⟩], []⟩
      else
        let max_bytes := cfg.max_file_mb * 1024 * 1024
        let sizeWarnStr := "file too large: " ++ toString u.size_bytes ++ " > " ++ toString max_bytes
        let ev3 := ev2 ++ (if sizeViol cfg u then [⟨"STORED", "WARN", "DOC_REJECTED_OVERSIZE"⟩] else [])
        if cfg.strict_mode ∧ sizeViol cfg u then
          ⟨⟨none, "", "REJECTED", u.size_bytes, u.mime, uri, false, none,
            ["DOC_REJECTED_OVERSIZE"], [sizeWarnStr]⟩, ev3, []⟩
        else
          let w3 := w2 ++ (if sizeViol cfg u then [sizeWarnStr] else [])
          let mimeWarnStr := "disallowed mime: " ++ u.mime
          let ev4 := ev3 ++ (if mimeViol cfg u then [⟨"STORED", "WARN", "DOC_REJECTED_MIME"⟩] else [])
          if cfg.strict_mode ∧ mimeViol cfg u then
            ⟨⟨none, "", "REJECTED", u.size_bytes, u.mime, uri, false, none,
              ["DOC_REJECTED_MIME"], [mimeWarnStr]⟩, ev4, []⟩
          else
            let w4 := w3 ++ (if mimeViol cfg u then [mimeWarnStr] else [])
            match findDoc u.sha256 with
            | some d =>
              ⟨⟨some d, u.sha256, "STORED", u.size_bytes, u.mime, uri, true,
                some (sha256Key u.sha256), ["DOC_DUPLICATE"], []⟩,
               ev4 ++ [⟨"STORED", "INFO", "DOC_DUPLICATE"⟩], []⟩
            | none =>
              let cw1 := match guessMime with
                | some g =>
                  if g ≠ u.mime then
                    ["mime_extension_mismatch: ext_guess=" ++ g ++ " provided=" ++ u.mime]
                  else []
                | none => []
              let cev1 : List DbEvent :=
                if cw1 ≠ [] then [⟨"CHECKER", "WARN", "mime_extension_mismatch"⟩] else []
              let cw2 := match statSize with
                | some st =>
                  if st ≠ u.size_bytes then
                    ["blob_size_mismatch: minio=" ++ toString st ++ " computed=" ++
                      toString u.size_bytes]
                  else []
                | none => ["blob_stat_failed: stat_error"]
              let cev2 : List DbEvent := match statSize with
                | some st =>
                  if st ≠ u.size_bytes then [⟨"CHECKER", "WARN", "blob_size_mismatch"⟩] else []
                | none => [⟨"CHECKER", "WARN", "blob_stat_failed"⟩]
              let cwarn := cw1 ++ cw2
              ⟨⟨some newId, u.sha256, "STORED", u.size_bytes, u.mime, uri, false,
                some (sha256Key u.sha256),
                ["DOC_STORED"] ++ (if cwarn ≠ [] then ["CHECKER_WARN"] else []),
                w4 ++ cwarn⟩,
               ev4 ++ [⟨"STORED", "OK", "DOC_STORED"⟩] ++ cev1 ++ cev2,
               [.putObject u.sha256, .upsertBlob u.sha256, .insertDocument newId]⟩

/-- Embedding of `IngestionService.store_many`: the batch-size guard rejects
every upload uniformly without touching any store; otherwise each upload is
processed independently (the worker pool preserves input order via
`executor.map`). -/
def store_many (cfg : IngestCfg) (findDoc : String → Option String) (newIds : ℕ → String)
    (guessMime : Upload → Option String) (statSize : Upload → Option ℕ)
    (srcUri : Option String) (uploads : List Upload) : List IngestOutcome :=
  if uploads.length > cfg.max_files_per_request then
    uploads.map fun u =>
      ⟨⟨none, "", "REJECTED", 0, u.mime,
        (match u.filename with | some f => if f = "" then "unnamed" else f | none => "unnamed"),
        false, none, ["DOC_REJECTED_TOO_MANY_FILES"],
        ["max_files_per_request=" ++ toString cfg.max_files_per_request]⟩, [], []⟩
  else
    uploads.enum.map fun p => process_one cfg findDoc (newIds p.1) (guessMime p.2) (statSize p.2) srcUri p.2

/-! ### Retrieval service: RRF fusion (`app/services/retrieval.py` lines 788-795) -/

/-- Rank of a chunk id in a leg: the Python dict comprehension
`h["chunk_id"]: i+1` keeps the last binding, and a missing id ranks `10^9`. -/
def legRank (leg : List String) (cid : String) : ℕ :=
  match leg.enum.reverse.find? (fun p => p.2 = cid) with
  | some p => p.1 + 1
  | none => 10 ^ 9

/-- Embedding of the RRF fusion branch: score every id seen in either leg
(first-occurrence order, like `dict.fromkeys`), then sort by score descending
(Python's stable `sort(key=..., reverse=True)`). -/
def rrfFuse (alpha : ℚ) (v kw : List String) : List (String × ℚ) :=
  let ids := dedupKeep (v ++ kw)
  let scored := ids.map fun cid =>
    (cid, alpha * (1 / (60 + (legRank v cid : ℚ))) + (1 - alpha) * (1 / (60 + (legRank kw cid : ℚ))))
  scored.mergeSort fun a b => decide (b.2 ≤ a.2)

/-- Candidate list built from the fused scores before rerank/boost/diversity:
`merged[:max(settings.rerank_topn, k*4)]` with each candidate's score replaced
by its fused score. -/
def rrfCandidates (alpha : ℚ) (v kw : List String) (rerank_topn k : ℕ) : List (String × ℚ) :=
  (rrfFuse alpha v kw).take (max rerank_topn (k * 4))

/-! ### Knowledge graph service (`app/services/graph.py`) -/

structure GNodeMeta where
  page : Option ℕ
  span_start : ℕ
  span_end : ℕ
  source_block_id : String
  headers : List String
  origin_type : String
deriving Repr, DecidableEq

/-- Graph node; `uuid4` node ids are modelled by a deterministic supply
(root = 0, the node of the i-th block = i+1), which preserves exactly the
freshness and distinctness the source relies on.  The root's empty meta is
`none`. -/
structure GNode where
  node_id : ℕ
  ntype : String
  label : String
  meta : Option GNodeMeta
deriving Repr, DecidableEq

structure GEdge where
  src : ℕ
  dst : ℕ
  rel : String
deriving Repr, DecidableEq

/-- Python `str.title()` (ASCII model): uppercase at word starts, lowercase
elsewhere. -/
def pyTitle (s : String) : String :=
  String.mk (go false s.toList)
where
  go : Bool → List Char → List Char
  | _, [] => []
  | prevAlpha, c :: r =>
    if c.isAlpha then (if prevAlpha then c.toLower else c.toUpper) :: go true r
    else c :: go false r

/-- Node label: stripped text truncated to 160 chars, else
`Type@page` with `page or 0`. -/
def gLabel (btype : String) (b : Block) : String :=
  let t := String.mk ((pyStrip b.text).toList.take 160)
  if t = "" then pyTitle btype ++ "@" ++ toString (b.page.getD 0) else t

/-- Effective header level: `int(meta.get("level") or 1)` (`None` and `0`
become 1). -/
def gLevel (b : Block) : ℕ :=
  match b.meta.level with
  | some l => if l = 0 then 1 else l
  | none => 1

/-- Parent-node resolution and header-stack update for one block: a header
pops all stack entries of equal or deeper level, parents under the remaining
top (or the root 0), and pushes itself; a non-header parents under the current
top. -/
def gParentStack (stack : List (ℕ × ℕ)) (nid : ℕ) (btype : String) (b : Block) :
    ℕ × List (ℕ × ℕ) :=
  if btype = "header" then
    let stack2 := stack.filter fun p => p.1 < gLevel b
    ((match stack2.getLast? with | some p => p.2 | none => 0), stack2 ++ [(gLevel b, nid)])
  else
    ((match stack.getLast? with | some p => p.2 | none => 0), stack)

/-- The `follows` edge(s) contributed by one block: one from the previous
block's node when there is one. -/
def gFollows : Option ℕ → ℕ → List GEdge
  | some p, nid => [⟨p, nid, "follows"⟩]
  | none, _ => []

/-- Main loop of `KnowledgeGraphService.build`: one node per block, a
`contains` edge from the nearest enclosing header (or the root, id 0), a
`follows` edge from the previous block's node, and the header stack popped at
each shallower-or-equal header. -/
def buildGraphGo : ℕ → List (ℕ × ℕ) → Option ℕ → List Block → List GNode × List GEdge
  | _, _, _, [] => ([], [])
  | nid, stack, prev, b :: rest =>
    let btype := if b.type = "" then "paragraph" else b.type
    let node : GNode := ⟨nid, btype, gLabel btype b,
      some ⟨b.page, b.span_start, b.span_end, b.block_id, b.meta.headers, btype⟩⟩
    let ps := gParentStack stack nid btype b
    let containsE : GEdge := ⟨ps.1, nid, "contains"⟩
    let followsE : List GEdge := gFollows prev nid
    let rec2 := buildGraphGo (nid + 1) ps.2 (some nid) rest
    (node :: rec2.1, containsE :: followsE ++ rec2.2)

/-- Embedding of `KnowledgeGraphService.build` (node/edge construction; the
atomic `replace_graph` write and event row carry no claim-relevant data).
`none` models the raised `no_blocks` error. -/
def buildGraph (doc_id : String) (blocks : List Block) : Option (List GNode × List GEdge) :=
  if blocks = [] then none
  else
    let root : GNode := ⟨0, "document", doc_id, none⟩
    let (ns, es) := buildGraphGo 1 [] none blocks
    some (root :: ns, es)

/-! ## Claims -/

/-- C1: on a re-run of `EmbeddingService.run_one`, (i) when every current
chunk's checksum equals the checksum stored for its chunk id in the vector
index — the index holding points exactly for the stored chunk ids, as a
previous run leaves it — zero points are upserted and zero deleted; (ii) when
exactly one chunk's checksum differs from its stored value (and no point is
stale) exactly one upsert and zero deletes happen; (iii) a point id is deleted
iff it is in the index but absent from the current chunk id set (each such id
once). -/
theorem embedder_incremental_delta (chunks : List EChunk) (existing : List (String × String)) :
    ((∀ c ∈ chunks, lookupChecksum existing c.chunk_id = some c.checksum) →
      (∀ p ∈ existing, p.1 ∈ chunks.map EChunk.chunk_id) →
      run_one_ops chunks existing = (0, [])) ∧
    ((∀ p ∈ existing, p.1 ∈ chunks.map EChunk.chunk_id) →
      chunks.countP (fun c => decide (lookupChecksum existing c.chunk_id ≠ some c.checksum)) = 1 →
      run_one_ops chunks existing = (1, [])) ∧
    (∀ cid, cid ∈ (run_one_ops chunks existing).2 ↔
      cid ∈ existing.map Prod.fst ∧ cid ∉ chunks.map EChunk.chunk_id) := by
  have hstale : (∀ p ∈ existing, p.1 ∈ chunks.map EChunk.chunk_id) →
      stale_ids chunks existing = [] := by
    intro h2
    refine List.filter_eq_nil_iff.mpr ?_
    intro cid hcid
    rcases List.mem_map.mp hcid with ⟨p, hp, hpe⟩
    have hm := h2 p hp
    rw [hpe] at hm
    simp only [decide_not, Bool.not_eq_true', decide_eq_false_iff_not, not_not]
    simpa using hm
  refine ⟨?_, ?_, ?_⟩
  · intro h1 h2
    have hneed : need_chunks chunks existing = [] := by
      refine List.filter_eq_nil_iff.mpr ?_
      intro c hc
      simp [h1 c hc]
    simp [run_one_ops, hneed, hstale h2]
  · intro h2 hcount
    have hlen : (need_chunks chunks existing).length = 1 := by
      rw [need_chunks, ← List.countP_eq_length_filter]
      exact hcount
    simp [run_one_ops, hlen, hstale h2]
  · intro cid
    simp only [run_one_ops, stale_ids, List.mem_filter, decide_not, Bool.not_eq_true',
      decide_eq_false_iff_not]
    constructor
    · rintro ⟨hmem, hnc⟩
      exact ⟨hmem, fun hin => hnc (List.elem_eq_true_of_mem hin)⟩
    · rintro ⟨hmem, hnin⟩
      exact ⟨hmem, fun hc => hnin (List.mem_of_elem_eq_true hc)⟩

/-- Witness for C1 at concrete inputs: an unchanged index is a no-op, a
single changed checksum upserts exactly one point, and a removed chunk id is
deleted. -/
theorem embedder_incremental_delta_witness :
    run_one_ops [⟨"c1", "x"⟩, ⟨"c2", "y"⟩] [("c1", "x"), ("c2", "y")] = (0, []) ∧
    run_one_ops [⟨"c1", "x"⟩, ⟨"c2", "z"⟩] [("c1", "x"), ("c2", "y")] = (1, []) ∧
    ("gone" ∈ (run_one_ops [⟨"c1", "x"⟩] [("c1", "x"), ("gone", "y")]).2 ↔
      "gone" ∈ ["c1", "gone"] ∧ "gone" ∉ ["c1"]) := by
  refine ⟨?_, ?_, ?_⟩
  · exact (embedder_incremental_delta _ _).1 (by decide) (by decide)
  · exact (embedder_incremental_delta _ _).2.1 (by decide) (by decide)
  · exact (embedder_incremental_delta [⟨"c1", "x"⟩] [("c1", "x"), ("gone", "y")]).2.2 "gone"

unseal markersGo in
/-- C3 (code bug): the regex of `_extract_cite_nums` is a character class with
no capture group, so the function returns `[]` on every input; with empty
parsed citations and a `[^3]` marker present among the packed footnotes
1,2,3, the repair therefore cites the first two footnotes instead of footnote
3 (the marker the spec — and the surrounding code's intent — would select). -/
theorem citation_repair_broken_code_eval :
    extract_cite_nums "See [^3] for details." = [] ∧
    citation_markers "See [^3] for details." = [3] ∧
    repair_citations [] "See [^3] for details." [1, 2, 3] = [1, 2] ∧
    (∀ s : String, extract_cite_nums s = []) := by
  have hall : ∀ s : String, extract_cite_nums s = [] := by
    intro s
    unfold extract_cite_nums
    split <;> rfl
  refine ⟨hall _, by decide, ?_, hall⟩
  rw [repair_citations, if_neg (by simp), hall]
  simp

/-- C6 counterexample: at adaptive target 40 a 10-token orphan following a
47-token chunk is merged by the code although the combined size 57 exceeds
120% of the target (48); the claim as stated would keep the two chunks
separate.  (The same arithmetic scales to the default target 800: a 49-token
orphan after a 959-token chunk merges to 1008 > 960.) -/
theorem orphan_merge_counterexample :
    (mergeTinyOrphans 40 [mkRow 0 100 1 1 (String.mk (List.replicate 187 'a'))
        ⟨["paragraph"], ["b1"], 47, "pack", [], none, none, none⟩,
      mkRow 100 120 1 1 (String.mk (List.replicate 37 'b'))
        ⟨["paragraph"], ["b2"], 10, "pack", [], none, none, none⟩]).length = 1 ∧
    ¬ (5 * (47 + 10) ≤ 6 * 40) ∧
    tok_count (String.mk (List.replicate 187 'a')) = 47 ∧
    tok_count (String.mk (List.replicate 37 'b')) = 10 := by
  refine ⟨rfl, by decide, by set_option maxRecDepth 4000 in decide,
    by set_option maxRecDepth 4000 in decide⟩

/-- C6 amended: in the tiny-orphan post-pass a following chunk is merged into
the previous one exactly when it has fewer than 50 tokens and the previous
(accumulated) chunk's own token count is strictly below 120% of the adaptive
target; the combined size of the two chunks is not consulted. -/
theorem orphan_merge_rule (target : ℕ) (p c : Row) :
    (c.meta.tokens < 50 ∧ 5 * p.meta.tokens < 6 * target →
      mergeTinyOrphans target [p, c] = [mergeRows p c]) ∧
    (¬ (c.meta.tokens < 50 ∧ 5 * p.meta.tokens < 6 * target) →
      mergeTinyOrphans target [p, c] = [p, c]) := by
  constructor
  · intro h
    simp [mergeTinyOrphans, mergeGo, h]
  · intro h
    simp [mergeTinyOrphans, mergeGo, h]

/-- Witness for C6 at concrete rows: a 10-token orphan merges into a 100-token
chunk at target 800, and a 50-token row does not merge. -/
theorem orphan_merge_rule_witness :
    (mergeTinyOrphans 800 [mkRow 0 1 1 1 "aaaa" ⟨["paragraph"], ["b1"], 100, "pack", [], none, none, none⟩,
        mkRow 1 2 1 1 "b" ⟨["paragraph"], ["b2"], 10, "pack", [], none, none, none⟩] =
      [mergeRows (mkRow 0 1 1 1 "aaaa" ⟨["paragraph"], ["b1"], 100, "pack", [], none, none, none⟩)
        (mkRow 1 2 1 1 "b" ⟨["paragraph"], ["b2"], 10, "pack", [], none, none, none⟩)]) ∧
    (mergeTinyOrphans 800 [mkRow 0 1 1 1 "aaaa" ⟨["paragraph"], ["b1"], 100, "pack", [], none, none, none⟩,
        mkRow 1 2 1 1 "b" ⟨["paragraph"], ["b2"], 50, "pack", [], none, none, none⟩] =
      [mkRow 0 1 1 1 "aaaa" ⟨["paragraph"], ["b1"], 100, "pack", [], none, none, none⟩,
        mkRow 1 2 1 1 "b" ⟨["paragraph"], ["b2"], 50, "pack", [], none, none, none⟩]) := by
  constructor
  · exact (orphan_merge_rule 800 _ _).1 (by constructor <;> decide)
  · exact (orphan_merge_rule 800 _ _).2 (by decide)

unseal numbersGo in
/-- C8 counterexample: for the answer and context `hello world` — an answer
with no numbers — the code scores 1.0 (the number ratio falls back to the
token ratio) while the claim's formula `0.4·token_ratio + 0.6·number_ratio`
yields 0.4. -/
theorem groundedness_counterexample :
    groundedness "hello world" "hello world" = 1 ∧
    groundedness_claimC8 "hello world" "hello world" = 2 / 5 := by
  have hne : ¬ (token_set "hello world" = ∅) := by decide
  have hcard : (token_set "hello world").card = 2 := by decide
  have hnums : numbers_in "hello world" = [] := by decide
  constructor
  · simp only [groundedness, if_neg hne, hnums, Finset.inter_self, hcard, List.toFinset_nil,
      if_pos rfl]
    norm_num [round3, pyRoundHalfEven, qfloor]
  · simp only [groundedness_claimC8, Finset.inter_self, hcard, hnums, List.toFinset_nil,
      Finset.card_empty]
    norm_num

/-- C8 amended: the groundedness score is 0 when the answer has no tokens of
length ≥ 3; otherwise it is `0.4·token_ratio + 0.6·number_ratio` rounded to
three decimals when the answer contains numbers, and the plain token overlap
ratio (rounded) when it contains none — the number ratio defaults to the token
ratio rather than 0. -/
theorem groundedness_cases (a c : String) :
    (token_set a = ∅ → groundedness a c = 0) ∧
    (token_set a ≠ ∅ → (numbers_in a).toFinset = ∅ →
      groundedness a c =
        round3 (((token_set a ∩ token_set c).card : ℚ) / ((max 1 (token_set a).card : ℕ) : ℚ))) ∧
    (token_set a ≠ ∅ → (numbers_in a).toFinset ≠ ∅ →
      groundedness a c =
        round3 (4 / 10 * (((token_set a ∩ token_set c).card : ℚ) / ((max 1 (token_set a).card : ℕ) : ℚ)) +
          6 / 10 * ((((numbers_in a).toFinset ∩ (numbers_in c).toFinset).card : ℚ) /
            ((max 1 (numbers_in a).toFinset.card : ℕ) : ℚ)))) := by
  refine ⟨?_, ?_, ?_⟩
  · intro h
    simp [groundedness, h]
  · intro h hn
    simp only [groundedness, if_neg h, hn, if_pos rfl]
    congr 1
    rw [if_pos trivial]
    ring
  · intro h hn
    simp [groundedness, h, hn]

unseal numbersGo in
/-- Witness for C8: a numberless answer scores its full token ratio and an
answer with a matching number follows the weighted formula. -/
theorem groundedness_cases_witness :
    (token_set "hello world" ≠ ∅ ∧
      groundedness "hello world" "hello world" =
        round3 (((token_set "hello world" ∩ token_set "hello world").card : ℚ) /
          ((max 1 (token_set "hello world").card : ℕ) : ℚ))) ∧
    ((numbers_in "total 42").toFinset ≠ ∅ ∧
      groundedness "total 42" "the total is 42" =
        round3 (4 / 10 * (((token_set "total 42" ∩ token_set "the total is 42").card : ℚ) /
            ((max 1 (token_set "total 42").card : ℕ) : ℚ)) +
          6 / 10 * ((((numbers_in "total 42").toFinset ∩ (numbers_in "the total is 42").toFinset).card : ℚ) /
            ((max 1 (numbers_in "total 42").toFinset.card : ℕ) : ℚ)))) := by
  constructor
  · exact ⟨by decide, (groundedness_cases _ _).2.1 (by decide) (by decide)⟩
  · exact ⟨by decide, (groundedness_cases _ _).2.2 (by decide) (by decide)⟩

/-- C5 counterexample: a document whose single block has empty text has no
tables and fewer than 600 total characters, so `run_one` selects the tiny
strategy — but `_make_tiny` filters out empty blocks and returns no rows, so
zero chunks are inserted, not exactly one. -/
theorem tiny_strategy_counterexample :
    (([⟨"b1", "paragraph", "", some 1, 0, 0, ⟨[], none, none, none, none⟩⟩] : List Block).all
      fun b => b.type ≠ "table") = true ∧
    totalChars [⟨"b1", "paragraph", "", some 1, 0, 0, ⟨[], none, none, none, none⟩⟩] < 600 ∧
    run_one ⟨800, 120, 5000⟩ (fun _ => none)
      [⟨"b1", "paragraph", "", some 1, 0, 0, ⟨[], none, none, none, none⟩⟩] none =
      some ("tiny", []) := by
  exact ⟨by decide, by decide, by decide⟩

/-- C5 amended: for a document with no table blocks and under 600 total text
characters, `run_one` selects the tiny strategy; provided additionally some
block has non-empty (stripped) text and some such block carries a page number
(otherwise the strategy inserts zero chunks or raises), and the chunk cap is
at least 1, exactly one chunk is inserted. -/
theorem tiny_strategy_single_chunk (cfg : ChunkCfg) (oracle : Row → Option String)
    (blocks : List Block) (filename : Option String)
    (htab : ∀ b ∈ blocks, b.type ≠ "table")
    (hsize : totalChars blocks < 600)
    (hne : ∃ b ∈ blocks, pyStrip b.text ≠ "" ∧ b.page ≠ none)
    (hmax : 1 ≤ cfg.max_chunks_per_doc) :
    strategyOf blocks = "tiny" ∧
    ∃ r, run_one cfg oracle blocks filename = some ("tiny", [r]) := by
  obtain ⟨b, hb, hbs, hbp⟩ := hne
  have hfil : blocks.filter (fun x => x.type = "table") = [] :=
    List.filter_eq_nil_iff.mpr fun x hx => by simpa using htab x hx
  have hstrat : strategyOf blocks = "tiny" := by
    simp [strategyOf, hfil, hsize]
  have hbmem : b ∈ blocks.filter (fun x => pyStrip x.text ≠ "") :=
    List.mem_filter.mpr ⟨hb, by simpa using hbs⟩
  have hnonempty : ¬ ((blocks.filter (fun x => pyStrip x.text ≠ "")).isEmpty = true) := by
    simp only [List.isEmpty_iff]
    exact List.ne_nil_of_mem hbmem
  obtain ⟨p, hp⟩ : ∃ p, b.page = some p := Option.ne_none_iff_exists'.mp hbp
  have hpmem : p ∈ (blocks.filter (fun x => pyStrip x.text ≠ "")).filterMap Block.page :=
    List.mem_filterMap.mpr ⟨b, hbmem, hp⟩
  have hpagesne : ¬ (((blocks.filter (fun x => pyStrip x.text ≠ "")).filterMap Block.page).isEmpty
      = true) := by
    simp only [List.isEmpty_iff]
    exact List.ne_nil_of_mem hpmem
  have hmt : ∃ r, make_tiny blocks (rootContextOf filename) = some [r] := by
    unfold make_tiny
    rw [if_neg hnonempty, if_neg hpagesne]
    exact ⟨_, rfl⟩
  obtain ⟨r, hr⟩ := hmt
  have hbne : blocks ≠ [] := List.ne_nil_of_mem hb
  refine ⟨hstrat, enrichRow oracle r, ?_⟩
  have hcap : ¬ (([enrichRow oracle r] : List Row).length > cfg.max_chunks_per_doc) := by
    simp only [List.length_singleton]
    omega
  simp only [run_one, if_neg hbne, hstrat, if_pos rfl, hr, Option.map_some, enrichRows,
    List.map_cons, List.map_nil]
  rw [if_pos trivial]
  rw [Option.map_some']
  simp only [List.map_cons, List.map_nil]
  rw [if_neg hcap]

/-- Witness for C5: a one-block paragraph document yields the tiny strategy
and exactly one chunk. -/
theorem tiny_strategy_single_chunk_witness :
    strategyOf [⟨"b", "paragraph", "hello", some 1, 0, 5, ⟨[], none, none, none, none⟩⟩] = "tiny" ∧
    ∃ r, run_one ⟨800, 120, 5000⟩ (fun _ => none)
      [⟨"b", "paragraph", "hello", some 1, 0, 5, ⟨[], none, none, none, none⟩⟩] none =
      some ("tiny", [r]) :=
  tiny_strategy_single_chunk ⟨800, 120, 5000⟩ (fun _ => none) _ none
    (by decide) (by decide) (by decide) (by decide)

/-- The checksum invariant for a single chunk row. -/
def RowChk (r : Row) : Prop := r.checksum = checksum r.text

theorem rowChk_mkRow (ss se ps pe : ℕ) (t : String) (m : RowMeta) :
    RowChk (mkRow ss se ps pe t m) := rfl

theorem rowChk_mergeRows (p c : Row) : RowChk (mergeRows p c) := rfl

theorem rowChk_tableRow (s : String) (rc : Option String) (b : Block) :
    RowChk (tableRow s rc b) := rfl

theorem rowChk_enrichRow (o : Row → Option String) (r : Row) (h : RowChk r) :
    RowChk (enrichRow o r) := by
  unfold enrichRow
  split
  · cases o r with
    | none => exact h
    | some c =>
      by_cases hc : c = ""
      · simp [hc, h]
      · simp [hc]
        rfl
  · exact h

theorem rowChk_splitPackLoop (target overlap : ℕ) (seg : Seg) (parts : List String) :
    ∀ i, ∀ r ∈ splitPackLoop target overlap seg parts i, RowChk r := by
  suffices h : ∀ n i, parts.length - i ≤ n →
      ∀ r ∈ splitPackLoop target overlap seg parts i, RowChk r by
    intro i
    exact h (parts.length - i) i le_rfl
  intro n
  induction n with
  | zero =>
    intro i hle r hr
    rw [splitPackLoop, dif_neg (by omega)] at hr
    exact absurd hr (List.not_mem_nil r)
  | succ n ih =>
    intro i hle r hr
    rw [splitPackLoop] at hr
    by_cases hi : i < parts.length
    · rw [dif_pos hi] at hr
      simp only [] at hr
      by_cases hj : greedyEnd target (parts.map tok_count) i 0 ≥ parts.length
      · rw [if_pos hj] at hr
        rcases List.mem_singleton.mp hr with rfl
        exact rowChk_mkRow _ _ _ _ _ _
      · rw [if_neg hj] at hr
        rcases List.mem_cons.mp hr with rfl | hr2
        · exact rowChk_mkRow _ _ _ _ _ _
        · refine ih _ ?_ r hr2
          have := le_max_left (i + 1)
            (backtrack (parts.map tok_count) i
              (greedyEnd target (parts.map tok_count) i 0 - 1)
              (if seg.stype = "table" then 0 else overlap) + 1)
          omega
    · rw [dif_neg hi] at hr
      exact absurd hr (List.not_mem_nil r)

theorem rowChk_split_long_segment (target overlap : ℕ) (seg : Seg) :
    ∀ r ∈ split_long_segment target overlap seg, RowChk r := by
  intro r hr
  unfold split_long_segment at hr
  exact rowChk_splitPackLoop _ _ _ _ _ r hr

theorem rowChk_packLoop (target overlap : ℕ) (segs : List Seg) :
    ∀ i, ∀ r ∈ packLoop target overlap segs i, RowChk r := by
  suffices h : ∀ n i, segs.length - i ≤ n →
      ∀ r ∈ packLoop target overlap segs i, RowChk r by
    intro i
    exact h (segs.length - i) i le_rfl
  intro n
  induction n with
  | zero =>
    intro i hle r hr
    rw [packLoop, dif_neg (by omega)] at hr
    exact absurd hr (List.not_mem_nil r)
  | succ n ih =>
    intro i hle r hr
    rw [packLoop] at hr
    by_cases hi : i < segs.length
    · rw [dif_pos hi] at hr
      simp only [] at hr
      by_cases hs : (segs.getD i default).tokens > target
      · rw [if_pos hs] at hr
        rcases List.mem_append.mp hr with hr1 | hr2
        · exact rowChk_split_long_segment _ _ _ r hr1
        · exact ih (i + 1) (by omega) r hr2
      · rw [if_neg hs] at hr
        by_cases hj : greedyEnd target (segs.map Seg.tokens) i 0 ≥ segs.length
        · rw [if_pos hj] at hr
          rcases List.mem_singleton.mp hr with rfl
          exact rowChk_mkRow _ _ _ _ _ _
        · rw [if_neg hj] at hr
          rcases List.mem_cons.mp hr with rfl | hr2
          · exact rowChk_mkRow _ _ _ _ _ _
          · refine ih _ ?_ r hr2
            have := le_max_left (i + 1)
              (backtrack (segs.map Seg.tokens) i
                (greedyEnd target (segs.map Seg.tokens) i 0 - 1)
                (if (segs.getD i default).stype = "list" ∨ (segs.getD i default).stype = "header"
                  then overlap / 2
                  else if (segs.getD i default).tokens > intMul07 target then 3 * overlap / 2
                  else overlap) + 1)
            omega
    · rw [dif_neg hi] at hr
      exact absurd hr (List.not_mem_nil r)

theorem rowChk_mergeGo (target : ℕ) :
    ∀ (rest : List Row) (prev : Row), RowChk prev → (∀ r ∈ rest, RowChk r) →
      ∀ r ∈ mergeGo target prev rest, RowChk r := by
  intro rest
  induction rest with
  | nil =>
    intro prev hp _ r hr
    rcases List.mem_singleton.mp hr with rfl
    exact hp
  | cons curr t ih =>
    intro prev hp hrest r hr
    unfold mergeGo at hr
    split at hr
    · exact ih (mergeRows prev curr) (rowChk_mergeRows _ _)
        (fun x hx => hrest x (List.mem_cons_of_mem _ hx)) r hr
    · rcases List.mem_cons.mp hr with rfl | hr2
      · exact hp
      · exact ih curr (hrest curr (List.mem_cons_self _ _))
          (fun x hx => hrest x (List.mem_cons_of_mem _ hx)) r hr2

theorem rowChk_mergeTinyOrphans (target : ℕ) (rows : List Row)
    (h : ∀ r ∈ rows, RowChk r) : ∀ r ∈ mergeTinyOrphans target rows, RowChk r := by
  intro r hr
  unfold mergeTinyOrphans at hr
  match rows, hr with
  | [], hr => exact absurd hr (List.not_mem_nil r)
  | [x], hr =>
    rcases List.mem_singleton.mp hr with rfl
    exact h r (List.mem_singleton.mpr rfl)
  | x :: y :: t, hr =>
    exact rowChk_mergeGo target (y :: t) x (h x (List.mem_cons_self _ _))
      (fun z hz => h z (List.mem_cons_of_mem _ hz)) r hr

theorem rowChk_pack_narrative (cfg : ChunkCfg) (blocks : List Block) (ih : Bool)
    (rc : Option String) (rows : List Row) (h : pack_narrative cfg blocks ih rc = some rows) :
    ∀ r ∈ rows, RowChk r := by
  unfold pack_narrative at h
  split at h
  · rcases Option.some.inj h with rfl
    intro r hr
    exact absurd hr (List.not_mem_nil r)
  · split at h
    · exact absurd h (by simp)
    · split at h
      · rcases Option.some.inj h with rfl
        intro r hr
        exact absurd hr (List.not_mem_nil r)
      · rcases Option.some.inj h with rfl
        exact rowChk_mergeTinyOrphans _ _ (rowChk_packLoop _ _ _ 0)

theorem rowChk_make_tiny (blocks : List Block) (rc : Option String) (rows : List Row)
    (h : make_tiny blocks rc = some rows) : ∀ r ∈ rows, RowChk r := by
  unfold make_tiny at h
  simp only [] at h
  repeat' split at h
  all_goals first
    | (rcases Option.some.inj h with rfl
       intro r hr
       first
         | exact absurd hr (List.not_mem_nil r)
         | (rcases List.mem_singleton.mp hr with rfl
            exact rowChk_mkRow _ _ _ _ _ _))
    | exact absurd h (by simp)

theorem rowChk_make_layout (cfg : ChunkCfg) (blocks : List Block) (rc : Option String)
    (rows : List Row) (h : make_layout cfg blocks rc = some rows) : ∀ r ∈ rows, RowChk r := by
  unfold make_layout at h
  simp only [] at h
  cases hp : pack_narrative cfg (blocks.filter fun b => b.type ≠ "table" ∧ pyStrip b.text ≠ "")
      true rc with
  | none => rw [hp] at h; exact absurd h (by simp)
  | some rows2 =>
    rw [hp] at h
    rcases Option.some.inj h with rfl
    intro r hr
    rcases List.mem_append.mp hr with hr1 | hr2
    · rcases List.mem_map.mp hr1 with ⟨b, _, rfl⟩
      exact rowChk_tableRow _ _ _
    · exact rowChk_pack_narrative cfg _ true rc rows2 hp r hr2

theorem rowChk_make_section (cfg : ChunkCfg) (blocks : List Block) (rc : Option String)
    (rows : List Row) (h : make_section cfg blocks rc = some rows) : ∀ r ∈ rows, RowChk r := by
  unfold make_section at h
  simp only [] at h
  cases hp : pack_narrative cfg (blocks.filter fun b => b.type ≠ "table" ∧ pyStrip b.text ≠ "")
      true rc with
  | none => rw [hp] at h; exact absurd h (by simp)
  | some rows2 =>
    rw [hp] at h
    rcases Option.some.inj h with rfl
    intro r hr
    rcases List.mem_append.mp hr with hr1 | hr2
    · rcases List.mem_map.mp hr1 with ⟨b, _, rfl⟩
      exact rowChk_tableRow _ _ _
    · exact rowChk_pack_narrative cfg _ true rc rows2 hp r hr2

/-- C2: every chunk row produced by a `ChunkingService.run_one` call — under
any strategy, any contextual-enrichment oracle (including the rewritten rows),
and after the tiny-orphan merge pass — stores as its checksum exactly the
SHA-256 hex digest of its final text. -/
theorem chunking_checksum_invariant (cfg : ChunkCfg) (oracle : Row → Option String)
    (blocks : List Block) (filename : Option String) :
    ((rowsOfRun cfg oracle blocks filename).all
      fun r => r.checksum == checksum r.text) = true := by
  refine List.all_eq_true.mpr ?_
  intro r hr
  suffices h : RowChk r by simpa [RowChk] using h
  unfold rowsOfRun at hr
  cases hrun : run_one cfg oracle blocks filename with
  | none =>
    rw [hrun] at hr
    exact absurd hr (List.not_mem_nil r)
  | some p =>
    rw [hrun] at hr
    unfold run_one at hrun
    split at hrun
    · exact absurd hrun (by simp)
    · simp only [] at hrun
      cases hrows : (if strategyOf blocks = "tiny" then make_tiny blocks (rootContextOf filename)
          else if strategyOf blocks = "layout" then make_layout cfg blocks (rootContextOf filename)
          else make_section cfg blocks (rootContextOf filename)) with
      | none =>
        rw [hrows] at hrun
        exact absurd hrun (by simp)
      | some rows0 =>
        rw [hrows] at hrun
        have hbase : ∀ x ∈ rows0, RowChk x := by
          by_cases h1 : strategyOf blocks = "tiny"
          · rw [if_pos h1] at hrows
            exact rowChk_make_tiny _ _ _ hrows
          · rw [if_neg h1] at hrows
            by_cases h2 : strategyOf blocks = "layout"
            · rw [if_pos h2] at hrows
              exact rowChk_make_layout _ _ _ _ hrows
            · rw [if_neg h2] at hrows
              exact rowChk_make_section _ _ _ _ hrows
        have henr : ∀ x ∈ enrichRows oracle rows0, RowChk x := by
          intro x hx
          rcases List.mem_map.mp hx with ⟨y, hy, rfl⟩
          exact rowChk_enrichRow oracle y (hbase y hy)
        rcases Option.some.inj hrun with rfl
        simp only at hr
        split at hr
        · exact henr r (List.mem_of_mem_take hr)
        · exact henr r hr

theorem find?_unique {α : Type} (p : α → Bool) (l : List α) (a : α) (ha : a ∈ l)
    (hpa : p a = true) (huniq : ∀ b ∈ l, p b = true → b = a) : l.find? p = some a := by
  induction l with
  | nil => exact absurd ha (List.not_mem_nil a)
  | cons h t ih =>
    by_cases hph : p h = true
    · rw [List.find?_cons_of_pos _ hph]
      rw [huniq h (List.mem_cons_self _ _) hph]
    · rw [List.find?_cons_of_neg _ (by simpa using hph)]
      have hat : a ∈ t := by
        rcases List.mem_cons.mp ha with rfl | h2
        · exact absurd hpa hph
        · exact h2
      exact ih hat fun b hb hpb => huniq b (List.mem_cons_of_mem _ hb) hpb

theorem get?_inj_of_nodup {α : Type} (l : List α) (i j : ℕ) (a : α) (hn : l.Nodup)
    (h1 : l.get? i = some a) (h2 : l.get? j = some a) : i = j := by
  rcases List.get?_eq_some.mp h1 with ⟨hi, hg1⟩
  rcases List.get?_eq_some.mp h2 with ⟨hj, hg2⟩
  have := List.nodup_iff_injective_get.mp hn
    (show l.get ⟨i, hi⟩ = l.get ⟨j, hj⟩ by rw [hg1, hg2])
  simpa using congrArg Fin.val this

/-- The rank of a chunk id present at (0-based) position `i` of a
duplicate-free leg is `i + 1`. -/
theorem legRank_eq (leg : List String) (cid : String) (i : ℕ) (hn : leg.Nodup)
    (hi : leg.get? i = some cid) : legRank leg cid = i + 1 := by
  have hfind : leg.enum.reverse.find? (fun p => p.2 = cid) = some (i, cid) := by
    refine find?_unique _ _ _ ?_ (by simp) ?_
    · rw [List.mem_reverse]
      exact List.mk_mem_enum_iff_get?.mpr hi
    · rintro ⟨j, b⟩ hb hpb
      have hjb : leg.get? j = some b := List.mk_mem_enum_iff_get?.mp (List.mem_reverse.mp hb)
      have hbeq : b = cid := by simpa using hpb
      subst hbeq
      have := get?_inj_of_nodup leg j i b hn hjb hi
      simp [this]
  unfold legRank
  rw [hfind]

theorem mem_dedupKeepGo {α : Type} [DecidableEq α] (l : List α) :
    ∀ (seen : List α) (a : α), a ∈ dedupKeepGo seen l ↔ a ∈ l ∧ a ∉ seen := by
  induction l with
  | nil => intro seen a; simp [dedupKeepGo]
  | cons h t ih =>
    intro seen a
    unfold dedupKeepGo
    by_cases hh : h ∈ seen
    · rw [if_pos hh, ih]
      constructor
      · rintro ⟨ha, hs⟩
        exact ⟨List.mem_cons_of_mem _ ha, hs⟩
      · rintro ⟨ha, hs⟩
        rcases List.mem_cons.mp ha with rfl | h2
        · exact absurd hh hs
        · exact ⟨h2, hs⟩
    · rw [if_neg hh]
      constructor
      · intro hmem
        rcases List.mem_cons.mp hmem with rfl | h2
        · exact ⟨List.mem_cons_self _ _, hh⟩
        · rcases (ih (h :: seen) a).mp h2 with ⟨ha, hs⟩
          exact ⟨List.mem_cons_of_mem _ ha, fun hx => hs (List.mem_cons_of_mem _ hx)⟩
      · rintro ⟨ha, hs⟩
        by_cases hah : a = h
        · subst hah
          exact List.mem_cons_self _ _
        · rcases List.mem_cons.mp ha with rfl | h2
          · exact absurd rfl hah
          · exact List.mem_cons_of_mem _ ((ih (h :: seen) a).mpr
              ⟨h2, fun hx => (List.mem_cons.mp hx).elim (fun he => hah he) hs⟩)

theorem nodup_dedupKeepGo {α : Type} [DecidableEq α] (l : List α) :
    ∀ seen : List α, (dedupKeepGo seen l).Nodup := by
  induction l with
  | nil => intro seen; simp [dedupKeepGo]
  | cons h t ih =>
    intro seen
    unfold dedupKeepGo
    by_cases hh : h ∈ seen
    · rw [if_pos hh]; exact ih seen
    · rw [if_neg hh]
      refine List.Nodup.cons ?_ (ih (h :: seen))
      intro hmem
      exact ((mem_dedupKeepGo t (h :: seen) h).mp hmem).2 (List.mem_cons_self _ _)

theorem mem_dedupKeep {α : Type} [DecidableEq α] (l : List α) (a : α) :
    a ∈ dedupKeep l ↔ a ∈ l := by
  unfold dedupKeep
  rw [mem_dedupKeepGo]
  simp

theorem nodup_dedupKeep {α : Type} [DecidableEq α] (l : List α) : (dedupKeep l).Nodup :=
  nodup_dedupKeepGo l []

theorem filter_eq_singleton_of_nodup {α : Type} [DecidableEq α] (l : List α) (a : α)
    (hn : l.Nodup) (ha : a ∈ l) : l.filter (fun x => x = a) = [a] := by
  induction l with
  | nil => exact absurd ha (List.not_mem_nil a)
  | cons hd t ih =>
    by_cases hha : hd = a
    · subst hha
      rw [List.filter_cons_of_pos (by simp)]
      have hnt : hd ∉ t := (List.nodup_cons.mp hn).1
      have ht : t.filter (fun x => x = hd) = [] :=
        List.filter_eq_nil_iff.mpr fun b hb => by
          simp only [decide_eq_true_eq]
          rintro rfl
          exact hnt hb
      rw [ht]
    · have hat : a ∈ t := by
        rcases List.mem_cons.mp ha with h1 | h2
        · exact absurd h1.symm hha
        · exact h2
      rw [List.filter_cons_of_neg (by simpa using hha)]
      exact ih (List.nodup_cons.mp hn).2 hat

/-- C7: in hybrid RRF fusion, a candidate appearing at 1-based rank `i+1` in
the vector leg and `j+1` in the keyword leg receives the fused score
`alpha/(60+rank_vec) + (1-alpha)/(60+rank_kw)` (it occurs exactly once in the
fused list), and the fused list — hence the candidate list handed to
rerank/boost/diversity — is ordered by score descending. -/
theorem rrf_fusion_formula (alpha : ℚ) (v kw : List String) (cid : String) (i j : ℕ)
    (hv : v.Nodup) (hk : kw.Nodup) (hiv : v.get? i = some cid) (hjk : kw.get? j = some cid) :
    ((rrfFuse alpha v kw).filter fun p => p.1 = cid) =
      [(cid, alpha * (1 / (60 + ((i + 1 : ℕ) : ℚ))) + (1 - alpha) * (1 / (60 + ((j + 1 : ℕ) : ℚ))))] ∧
    (rrfFuse alpha v kw).Pairwise (fun a b => b.2 ≤ a.2) ∧
    (∀ topn k, (rrfCandidates alpha v kw topn k).Pairwise (fun a b => b.2 ≤ a.2)) := by
  have hsorted : (rrfFuse alpha v kw).Pairwise (fun a b => b.2 ≤ a.2) := by
    unfold rrfFuse
    refine List.Pairwise.imp (fun h => of_decide_eq_true h) (List.sorted_mergeSort ?_ ?_ _)
    · intro a b c hab hbc
      exact decide_eq_true (le_trans (of_decide_eq_true hbc) (of_decide_eq_true hab))
    · intro a b
      rcases le_total a.2 b.2 with h | h
      · simp [h]
      · simp [h]
  refine ⟨?_, hsorted, ?_⟩
  · have hrv : legRank v cid = i + 1 := legRank_eq v cid i hv hiv
    have hrk : legRank kw cid = j + 1 := legRank_eq kw cid j hk hjk
    set f : String → String × ℚ := fun c =>
      (c, alpha * (1 / (60 + (legRank v c : ℚ))) + (1 - alpha) * (1 / (60 + (legRank kw c : ℚ))))
      with hf
    have hperm : List.Perm (((dedupKeep (v ++ kw)).map f).mergeSort (fun a b => decide (b.2 ≤ a.2)))
        ((dedupKeep (v ++ kw)).map f) := List.mergeSort_perm _ _
    have hfil : (((dedupKeep (v ++ kw)).map f).filter fun p => p.1 = cid) = [f cid] := by
      rw [List.filter_map]
      have hpred : ((dedupKeep (v ++ kw)).filter ((fun p => decide (p.1 = cid)) ∘ f)) =
          (dedupKeep (v ++ kw)).filter (fun x => x = cid) := by
        refine List.filter_congr ?_
        intro x _
        simp [hf]
      rw [hpred, filter_eq_singleton_of_nodup _ _ (nodup_dedupKeep _)
        ((mem_dedupKeep _ _).mpr (List.mem_append.mpr (Or.inl (List.get?_mem hiv))))]
      simp
    have : List.Perm ((rrfFuse alpha v kw).filter fun p => p.1 = cid) [f cid] := by
      unfold rrfFuse
      rw [← hfil]
      exact (hperm.filter _)
    rw [List.perm_singleton.mp this, hf]
    simp only [hrv, hrk]
  · intro topn k
    unfold rrfCandidates
    exact List.Pairwise.sublist (List.take_sublist _ _) hsorted

/-- Witness for C7 at concrete legs: id `a` ranks 1 in the vector leg and 2 in
the keyword leg. -/
theorem rrf_fusion_formula_witness :
    ((rrfFuse (7 / 10) ["a", "b"] ["b", "a"]).filter fun p => p.1 = "a") =
      [("a", 7 / 10 * (1 / (60 + ((0 + 1 : ℕ) : ℚ))) +
        (1 - 7 / 10) * (1 / (60 + ((1 + 1 : ℕ) : ℚ))))] ∧
    (rrfFuse (7 / 10) ["a", "b"] ["b", "a"]).Pairwise (fun a b => b.2 ≤ a.2) ∧
    (∀ topn k, (rrfCandidates (7 / 10) ["a", "b"] ["b", "a"] topn k).Pairwise
      (fun a b => b.2 ≤ a.2)) :=
  rrf_fusion_formula (7 / 10) ["a", "b"] ["b", "a"] "a" 0 1
    (by decide) (by decide) (by decide) (by decide)

/-- C9 counterexample: with `strict_mode = false` an empty (0-byte) upload is
nevertheless REJECTED with the `empty file` warning — the claim's
"record WARN and proceed to store with state STORED" does not hold for the
size-greater-than-zero gate. -/
theorem nonstrict_empty_file_counterexample :
    (⟨10, 200, [".exe"], 50, [], false⟩ : IngestCfg).strict_mode = false ∧
    ((store_many ⟨10, 200, [".exe"], 50, [], false⟩ (fun _ => none) (fun _ => "NEW")
        (fun _ => none) (fun _ => some 0) none
        [⟨some "a.txt", 0, "text/plain", "e3b0c44298"⟩]).map
      fun o => (o.item.state, o.item.warnings, o.actions)) =
      [("REJECTED", ["empty file"], [])] := by
  exact ⟨rfl, by decide⟩

/-- C9 amended: with `strict_mode = false`, for every non-empty, non-duplicate
upload in a within-limit batch, each violated per-file gate (filename length,
disallowed extension, oversize, MIME allowlist) records a WARN event and
attaches its violation string as a warning, while ingestion proceeds: the
object is uploaded, the document row inserted, and the item returned with
state STORED.  Empty files are rejected even in non-strict mode, and a
duplicate upload returns early without the warnings attached. -/
theorem nonstrict_warn_and_proceed (cfg : IngestCfg) (findDoc : String → Option String)
    (newId : String) (guessMime : Option String) (statSize : Option ℕ) (srcUri : Option String)
    (u : Upload) (hstrict : cfg.strict_mode = false) (hsize : u.size_bytes ≠ 0)
    (hnew : findDoc u.sha256 = none) :
    (lenViol cfg u →
      ("filename too long (> " ++ toString cfg.max_filename_len ++ ")") ∈
        (process_one cfg findDoc newId guessMime statSize srcUri u).item.warnings ∧
      (⟨"STORED", "WARN", "DOC_REJECTED_FILENAME_LEN"⟩ : DbEvent) ∈
        (process_one cfg findDoc newId guessMime statSize srcUri u).events) ∧
    (extViol cfg u →
      ("disallowed extension: " ++ uploadExt u) ∈
        (process_one cfg findDoc newId guessMime statSize srcUri u).item.warnings ∧
      (⟨"STORED", "WARN", "DOC_REJECTED_EXTENSION"⟩ : DbEvent) ∈
        (process_one cfg findDoc newId guessMime statSize srcUri u).events) ∧
    (sizeViol cfg u →
      ("file too large: " ++ toString u.size_bytes ++ " > " ++
          toString (cfg.max_file_mb * 1024 * 1024)) ∈
        (process_one cfg findDoc newId guessMime statSize srcUri u).item.warnings ∧
      (⟨"STORED", "WARN", "DOC_REJECTED_OVERSIZE"⟩ : DbEvent) ∈
        (process_one cfg findDoc newId guessMime statSize srcUri u).events) ∧
    (mimeViol cfg u →
      ("disallowed mime: " ++ u.mime) ∈
        (process_one cfg findDoc newId guessMime statSize srcUri u).item.warnings ∧
      (⟨"STORED", "WARN", "DOC_REJECTED_MIME"⟩ : DbEvent) ∈
        (process_one cfg findDoc newId guessMime statSize srcUri u).events) ∧
    (process_one cfg findDoc newId guessMime statSize srcUri u).item.state = "STORED" ∧
    StoreAction.putObject u.sha256 ∈
      (process_one cfg findDoc newId guessMime statSize srcUri u).actions ∧
    StoreAction.insertDocument newId ∈
      (process_one cfg findDoc newId guessMime statSize srcUri u).actions ∧
    (∀ (uploads : List Upload) (newIds : ℕ → String) (gM : Upload → Option String)
        (sS : Upload → Option ℕ), uploads.length ≤ cfg.max_files_per_request →
      store_many cfg findDoc newIds gM sS srcUri uploads =
        uploads.enum.map fun p =>
          process_one cfg findDoc (newIds p.1) (gM p.2) (sS p.2) srcUri p.2) := by
  refine ⟨?_, ?_, ?_, ?_, ?_, ?_, ?_, ?_⟩
  · intro hlen
    unfold process_one
    simp only [hstrict, Bool.false_eq_true, false_and, if_false, if_neg hsize, hnew]
    constructor
    · simp [if_pos hlen]
    · simp [if_pos hlen]
  · intro hext
    unfold process_one
    simp only [hstrict, Bool.false_eq_true, false_and, if_false, if_neg hsize, hnew]
    constructor
    · simp [if_pos hext]
    · simp [if_pos hext]
  · intro hsz
    unfold process_one
    simp only [hstrict, Bool.false_eq_true, false_and, if_false, if_neg hsize, hnew]
    constructor
    · simp [if_pos hsz]
    · simp [if_pos hsz]
  · intro hmime
    unfold process_one
    simp only [hstrict, Bool.false_eq_true, false_and, if_false, if_neg hsize, hnew]
    constructor
    · simp [if_pos hmime]
    · simp [if_pos hmime]
  · unfold process_one
    simp only [hstrict, Bool.false_eq_true, false_and, if_false, if_neg hsize, hnew]
  · unfold process_one
    simp [hstrict, hsize, hnew]
  · unfold process_one
    simp [hstrict, hsize, hnew]
  · intro uploads newIds gM sS hlen
    unfold store_many
    rw [if_neg (by omega)]

/-- Witness for C9: a non-strict upload with a disallowed extension and an
oversize body is stored with both warnings attached. -/
theorem nonstrict_warn_and_proceed_witness :
    (extViol ⟨10, 200, [".exe"], 1, [], false⟩ ⟨some "x.exe", 2000000, "text/plain", "abc"⟩ →
      ("disallowed extension: " ++
          uploadExt ⟨some "x.exe", 2000000, "text/plain", "abc"⟩) ∈
        (process_one ⟨10, 200, [".exe"], 1, [], false⟩ (fun _ => none) "NEW" none (some 2000000)
          none ⟨some "x.exe", 2000000, "text/plain", "abc"⟩).item.warnings ∧
      (⟨"STORED", "WARN", "DOC_REJECTED_EXTENSION"⟩ : DbEvent) ∈
        (process_one ⟨10, 200, [".exe"], 1, [], false⟩ (fun _ => none) "NEW" none (some 2000000)
          none ⟨some "x.exe", 2000000, "text/plain", "abc"⟩).events) ∧
    extViol ⟨10, 200, [".exe"], 1, [], false⟩ ⟨some "x.exe", 2000000, "text/plain", "abc"⟩ ∧
    sizeViol ⟨10, 200, [".exe"], 1, [], false⟩ ⟨some "x.exe", 2000000, "text/plain", "abc"⟩ ∧
    (process_one ⟨10, 200, [".exe"], 1, [], false⟩ (fun _ => none) "NEW" none (some 2000000)
      none ⟨some "x.exe", 2000000, "text/plain", "abc"⟩).item.state = "STORED" :=
  ⟨(nonstrict_warn_and_proceed ⟨10, 200, [".exe"], 1, [], false⟩ (fun _ => none) "NEW" none
      (some 2000000) none ⟨some "x.exe", 2000000, "text/plain", "abc"⟩ rfl (by decide) rfl).2.1,
   by decide, by decide,
   (nonstrict_warn_and_proceed ⟨10, 200, [".exe"], 1, [], false⟩ (fun _ => none) "NEW" none
      (some 2000000) none ⟨some "x.exe", 2000000, "text/plain", "abc"⟩ rfl (by decide)
      rfl).2.2.2.2.1⟩

/-- C4 counterexample: an upload whose `(tenant, sha256)` already exists but
which violates a policy gate in strict mode is REJECTED before the
deduplication lookup: no `DOC_DUPLICATE` event, no `duplicate=true`, no
existing doc id returned. -/
theorem ingest_duplicate_counterexample :
    ((store_many ⟨10, 200, [".exe"], 50, [], true⟩ (fun _ => some "D9") (fun _ => "NEW")
        (fun _ => none) (fun _ => some 5) none
        [⟨some "x.exe", 5, "text/plain", "abc"⟩]).map
      fun o => (o.item.state, o.item.duplicate, o.item.doc_id,
        o.events.filter fun e => e.event = "DOC_DUPLICATE")) =
      [("REJECTED", false, none, [])] := by
  decide

/-- C4 amended: for every upload in a within-limit batch whose
`(tenant, sha256)` already exists — provided it is non-empty and, when strict
mode is on, violates no policy gate — `store_many` performs no object-store
upload and no document insert, emits an INFO `DOC_DUPLICATE` event, and
returns an item with the existing doc id, `duplicate = true`, and
state STORED. -/
theorem ingest_duplicate_skips_store (cfg : IngestCfg) (findDoc : String → Option String)
    (newId : String) (guessMime : Option String) (statSize : Option ℕ) (srcUri : Option String)
    (u : Upload) (d : String) (hsize : u.size_bytes ≠ 0)
    (hstrict : cfg.strict_mode = true → noPolicyViol cfg u)
    (hdup : findDoc u.sha256 = some d) :
    (process_one cfg findDoc newId guessMime statSize srcUri u).item.doc_id = some d ∧
    (process_one cfg findDoc newId guessMime statSize srcUri u).item.duplicate = true ∧
    (process_one cfg findDoc newId guessMime statSize srcUri u).item.state = "STORED" ∧
    (process_one cfg findDoc newId guessMime statSize srcUri u).actions = [] ∧
    (⟨"STORED", "INFO", "DOC_DUPLICATE"⟩ : DbEvent) ∈
      (process_one cfg findDoc newId guessMime statSize srcUri u).events ∧
    (∀ (uploads : List Upload) (newIds : ℕ → String) (gM : Upload → Option String)
        (sS : Upload → Option ℕ), uploads.length ≤ cfg.max_files_per_request →
      store_many cfg findDoc newIds gM sS srcUri uploads =
        uploads.enum.map fun p =>
          process_one cfg findDoc (newIds p.1) (gM p.2) (sS p.2) srcUri p.2) := by
  have hbatch : ∀ (uploads : List Upload) (newIds : ℕ → String) (gM : Upload → Option String)
      (sS : Upload → Option ℕ), uploads.length ≤ cfg.max_files_per_request →
      store_many cfg findDoc newIds gM sS srcUri uploads =
        uploads.enum.map fun p =>
          process_one cfg findDoc (newIds p.1) (gM p.2) (sS p.2) srcUri p.2 := by
    intro uploads newIds gM sS hlen
    unfold store_many
    rw [if_neg (by omega)]
  by_cases hm : cfg.strict_mode = true
  · obtain ⟨h1, h2, h3, h4⟩ := hstrict hm
    refine ⟨?_, ?_, ?_, ?_, ?_, hbatch⟩
    all_goals
      unfold process_one
      simp only [hm, true_and, if_neg h1, if_neg h2, if_neg hsize, if_neg h3, if_neg h4, hdup]
    all_goals try simp
  · simp only [Bool.not_eq_true] at hm
    refine ⟨?_, ?_, ?_, ?_, ?_, hbatch⟩
    all_goals
      unfold process_one
      simp only [hm, Bool.false_eq_true, false_and, if_false, if_neg hsize, hdup]
    all_goals try simp

/-- Witness for C4: a clean duplicate upload in non-strict mode returns the
existing document id without storing anything. -/
theorem ingest_duplicate_skips_store_witness :
    (process_one ⟨10, 200, [".exe"], 50, [], false⟩ (fun _ => some "D9") "NEW" none (some 5)
      none ⟨some "x.txt", 5, "text/plain", "abc"⟩).item.doc_id = some "D9" ∧
    (process_one ⟨10, 200, [".exe"], 50, [], false⟩ (fun _ => some "D9") "NEW" none (some 5)
      none ⟨some "x.txt", 5, "text/plain", "abc"⟩).item.duplicate = true ∧
    (process_one ⟨10, 200, [".exe"], 50, [], false⟩ (fun _ => some "D9") "NEW" none (some 5)
      none ⟨some "x.txt", 5, "text/plain", "abc"⟩).item.state = "STORED" ∧
    (process_one ⟨10, 200, [".exe"], 50, [], false⟩ (fun _ => some "D9") "NEW" none (some 5)
      none ⟨some "x.txt", 5, "text/plain", "abc"⟩).actions = [] :=
  have h := ingest_duplicate_skips_store ⟨10, 200, [".exe"], 50, [], false⟩ (fun _ => some "D9")
    "NEW" none (some 5) none ⟨some "x.txt", 5, "text/plain", "abc"⟩ "D9" (by decide)
    (fun hm => by exact absurd hm (by decide)) rfl
  ⟨h.1, h.2.1, h.2.2.1, h.2.2.2.1⟩

/-- Expected (src, dst) pairs of the `follows` edges produced by
`buildGraphGo` starting at node id `nid` with previous node `prev`. -/
def expFirst : Option ℕ → ℕ → List (ℕ × ℕ)
  | some p, nid => [(p, nid)]
  | none, _ => []

def expFollows (prev : Option ℕ) (nid : ℕ) : ℕ → List (ℕ × ℕ)
  | 0 => []
  | n + 1 => expFirst prev nid ++ expFollows (some nid) (nid + 1) n

theorem buildGraphGo_spec (blocks : List Block) :
    ∀ (nid : ℕ) (stack : List (ℕ × ℕ)) (prev : Option ℕ),
      (buildGraphGo nid stack prev blocks).1.length = blocks.length ∧
      (((buildGraphGo nid stack prev blocks).2.filter fun e => e.rel = "contains").map
          GEdge.dst) = (List.range blocks.length).map (nid + ·) ∧
      (((buildGraphGo nid stack prev blocks).2.filter fun e => e.rel = "follows").map
          fun e => (e.src, e.dst)) = expFollows prev nid blocks.length ∧
      (buildGraphGo nid stack prev blocks).2.length =
        blocks.length + (expFollows prev nid blocks.length).length := by
  induction blocks with
  | nil =>
    intro nid stack prev
    simp [buildGraphGo, expFollows]
  | cons b rest ih =>
    intro nid stack prev
    obtain ⟨ihn, ihc, ihf, ihl⟩ := ih (nid + 1)
      (gParentStack stack nid (if b.type = "" then "paragraph" else b.type) b).2 (some nid)
    have hrange : (List.range (b :: rest).length).map (nid + ·) =
        nid :: (List.range rest.length).map ((nid + 1) + ·) := by
      simp only [List.length_cons, List.range_succ_eq_map, List.map_cons, List.map_map,
        Nat.add_zero]
      refine congrArg (List.cons nid) (List.map_congr_left fun t _ => ?_)
      simp only [Function.comp_apply]
      omega
    cases prev with
    | none =>
      unfold buildGraphGo
      simp only [gFollows, List.cons_append, List.nil_append]
      refine ⟨by simp [ihn], ?_, ?_, ?_⟩
      · rw [List.filter_cons_of_pos (by simp), List.map_cons, ihc, hrange]
      · rw [List.filter_cons_of_neg (by simp), ihf]
        simp only [List.length_cons, expFollows, expFirst, List.nil_append]
      · simp only [List.length_cons, ihl, expFollows, expFirst, List.nil_append]
        omega
    | some p =>
      unfold buildGraphGo
      simp only [gFollows, List.cons_append, List.nil_append]
      refine ⟨by simp [ihn], ?_, ?_, ?_⟩
      · rw [List.filter_cons_of_pos (by simp), List.filter_cons_of_neg (by simp),
          List.map_cons, ihc, hrange]
      · rw [List.filter_cons_of_neg (by simp), List.filter_cons_of_pos (by simp),
          List.map_cons, ihf]
        simp only [List.length_cons, expFollows, expFirst, List.singleton_append]
      · simp only [List.length_cons, ihl, expFollows, expFirst, List.singleton_append]
        omega

theorem expFollows_some_closed :
    ∀ (n nid p : ℕ), expFollows (some p) nid (n + 1) =
      (p, nid) :: (List.range n).map fun t => (nid + t, nid + t + 1) := by
  intro n
  induction n with
  | zero =>
    intro nid p
    simp [expFollows, expFirst]
  | succ m ih =>
    intro nid p
    rw [show expFollows (some p) nid (m + 1 + 1) =
      [(p, nid)] ++ expFollows (some nid) (nid + 1) (m + 1) from rfl]
    rw [ih (nid + 1) nid]
    rw [List.range_succ_eq_map]
    simp only [List.cons_append, List.nil_append, List.map_cons, List.map_map]
    refine congrArg ((p, nid) :: ·) ?_
    refine congrArg ((nid + 0, nid + 0 + 1) :: ·) ?_
    refine List.map_congr_left ?_
    intro t _
    simp only [Function.comp_apply, Prod.mk.injEq]
    omega

theorem expFollows_none_closed :
    ∀ (n nid : ℕ), expFollows none nid n =
      (List.range (n - 1)).map fun t => (nid + t, nid + t + 1) := by
  intro n
  cases n with
  | zero => intro nid; simp [expFollows, expFirst]
  | succ m =>
    intro nid
    cases m with
    | zero => simp [expFollows, expFirst]
    | succ k =>
      rw [show expFollows none nid (k + 1 + 1) =
        [] ++ expFollows (some nid) (nid + 1) (k + 1) from rfl]
      rw [expFollows_some_closed k (nid + 1) nid]
      rw [show (k + 1 + 1) - 1 = k + 1 from rfl, List.range_succ_eq_map]
      simp only [List.nil_append, List.map_cons, List.map_map]
      refine congrArg ((nid + 0, nid + 0 + 1) :: ·) ?_
      refine List.map_congr_left ?_
      intro t _
      simp only [Function.comp_apply, Prod.mk.injEq]
      omega

/-- C10: for every document with at least one block,
`KnowledgeGraphService.build` creates exactly `n + 1` nodes (the document root
plus one per block) and `2n - 1` edges: one `contains` edge per block (its
node is the edge's destination) and one `follows` edge between each pair of
consecutive block nodes in document order. -/
theorem graph_build_counts (doc_id : String) (blocks : List Block) (hne : blocks ≠ []) :
    ∃ nodes edges, buildGraph doc_id blocks = some (nodes, edges) ∧
      nodes.length = blocks.length + 1 ∧
      edges.length = 2 * blocks.length - 1 ∧
      edges.countP (fun e => e.rel = "contains") = blocks.length ∧
      edges.countP (fun e => e.rel = "follows") = blocks.length - 1 ∧
      ((edges.filter fun e => e.rel = "contains").map GEdge.dst) =
        (List.range blocks.length).map (· + 1) ∧
      ((edges.filter fun e => e.rel = "follows").map fun e => (e.src, e.dst)) =
        (List.range (blocks.length - 1)).map (fun t => (t + 1, t + 2)) := by
  obtain ⟨hn, hc, hf, hl⟩ := buildGraphGo_spec blocks 1 [] none
  refine ⟨⟨0, "document", doc_id, none⟩ :: (buildGraphGo 1 [] none blocks).1,
    (buildGraphGo 1 [] none blocks).2, ?_, ?_, ?_, ?_, ?_, ?_, ?_⟩
  · unfold buildGraph
    rw [if_neg hne]
  · simp [hn]
  · rw [hl, expFollows_none_closed]
    simp only [List.length_map, List.length_range]
    have : blocks.length ≥ 1 := by
      cases blocks with
      | nil => exact absurd rfl hne
      | cons _ _ => simp
    omega
  · rw [List.countP_eq_length_filter]
    have := congrArg List.length hc
    simpa using this
  · rw [List.countP_eq_length_filter]
    have := congrArg List.length hf
    rw [expFollows_none_closed] at this
    simpa using this
  · rw [hc]
    refine List.map_congr_left ?_
    intro t _
    omega
  · rw [hf, expFollows_none_closed]
    refine List.map_congr_left ?_
    intro t _
    simp only [Prod.mk.injEq]
    omega

/-- Witness for C10: a three-block document yields 4 nodes and 5 edges with
the expected contains/follows structure. -/
theorem graph_build_counts_witness :
    ∃ nodes edges, buildGraph "doc"
        [⟨"b1", "header", "Intro", some 1, 0, 5, ⟨[], some 1, none, none, none⟩⟩,
         ⟨"b2", "paragraph", "Body", some 1, 5, 9, ⟨[], none, none, none, none⟩⟩,
         ⟨"b3", "table", "r|c", some 2, 9, 12, ⟨[], none, some 2, some 2, none⟩⟩] =
        some (nodes, edges) ∧
      nodes.length = 3 + 1 ∧
      edges.length = 2 * 3 - 1 ∧
      edges.countP (fun e => e.rel = "contains") = 3 ∧
      edges.countP (fun e => e.rel = "follows") = 3 - 1 ∧
      ((edges.filter fun e => e.rel = "contains").map GEdge.dst) =
        (List.range 3).map (· + 1) ∧
      ((edges.filter fun e => e.rel = "follows").map fun e => (e.src, e.dst)) =
        (List.range (3 - 1)).map (fun t => (t + 1, t + 2)) :=
  graph_build_counts "doc" _ (by decide)

end IDP
